import Mathlib

/-!
Verification of the connection-pooling core of an asynchronous HTTP client
library (httpx / httpcore, version 0.1.0 era).

The development shallowly embeds the two pool implementations of the source:

* `src/httpcore/connection_pool.py`: `ConnectionStore` (a pair of
  insertion-ordered dictionaries) and the store-based `ConnectionPool`;
* `src/httpcore/pool.py`: the counter-based `ConnectionPool` (modelled here
  as `PoolB`) with its per-origin keepalive lists and `ConnectionSemaphore`;
* `src/httpcore/connection.py`: the `HTTPConnection` facade that lazily opens
  a transport and dispatches to an HTTP/1.1 or HTTP/2 engine.

Python insertion-ordered dictionaries are embedded as lists of keys
(`dictAdd` keeps an existing key at its old position, exactly as `d[k] = v`
does) and as association lists for origin-indexed tables.  Stateful methods
become pure functions from state to state; awaiting a semaphore with a
timeout, in this single-task sequential model, either succeeds immediately or
times out (`PoolTimeout`), matching the spec of the pool semaphore.
Connection objects are identified by a numeric id; the engine-side
`is_closed` flag of a connection, which is mutated outside the pool files, is
kept in a separate set of closed ids that an environment event may extend.
-/

namespace Httpx

/-- Modelled from the spec (3. DATA MODEL): the URL scheme of an origin,
`http` or `https`.  `models.py`, which defines `Origin`, is not part of the
provided sources. -/
inductive Scheme where
  | http
  | https
deriving DecidableEq, Repr

/-- Modelled from the spec (3. DATA MODEL): an origin is the triple
(scheme, host, port) with structural equality. -/
structure Origin where
  scheme : Scheme
  host : String
  port : Nat
deriving DecidableEq, Repr

/-- A connection object as the pool sees it: an object identity `id` and the
origin it was constructed for (`HTTPConnection.origin`).  The time-varying
engine state lives outside this record. -/
structure Conn where
  id : Nat
  origin : Origin
deriving DecidableEq, Repr

/-- Reading `connection.is_closed`: the engine reports closed exactly when
the connection's id is in the set of closed ids. -/
def Conn.is_closed (closedIds : List Nat) (c : Conn) : Bool :=
  c.id ∈ closedIds

/-- Insertion-ordered dictionary write `d[k] = 0.0` restricted to its key
list: an existing key keeps its position, a new key is appended. -/
def dictAdd (l : List Conn) (c : Conn) : List Conn :=
  if c ∈ l then l else l ++ [c]

/-- Lookup in an insertion-ordered association list (`d[k]`, first match). -/
def alistLookup (m : List (Origin × List Conn)) (o : Origin) :
    Option (List Conn) :=
  match m with
  | [] => none
  | (oKey, v) :: rest => if oKey = o then some v else alistLookup rest o

/-- Lookup with default `[]` for an absent key. -/
def alistLookupD (m : List (Origin × List Conn)) (o : Origin) : List Conn :=
  (alistLookup m o).getD []

/-- Association-list write `d[k] = v`: replace the value at an existing key
in place, append a new key at the end. -/
def alistSet (m : List (Origin × List Conn)) (o : Origin) (v : List Conn) :
    List (Origin × List Conn) :=
  match m with
  | [] => [(o, v)]
  | (oKey, vKey) :: rest =>
    if oKey = o then (o, v) :: rest else (oKey, vKey) :: alistSet rest o v

/-- Association-list delete `del d[k]`: remove the entry at the key. -/
def alistDel (m : List (Origin × List Conn)) (o : Origin) :
    List (Origin × List Conn) :=
  match m with
  | [] => []
  | (oKey, vKey) :: rest =>
    if oKey = o then rest else (oKey, vKey) :: alistDel rest o

/-- Embedding of `ConnectionStore` (src/httpcore/connection_pool.py,
lines 21-76): `all` is the key list of the `all` dictionary in insertion
order, `by_origin` is the origin-indexed dictionary of inner dictionaries,
each inner dictionary again reduced to its key list. -/
structure ConnectionStore where
  all : List Conn
  by_origin : List (Origin × List Conn)
deriving DecidableEq, Repr

/-- A fresh `ConnectionStore()`. -/
def ConnectionStore.empty : ConnectionStore :=
  { all := [], by_origin := [] }

/-- Embedding of `ConnectionStore.add`. -/
def ConnectionStore.add (s : ConnectionStore) (c : Conn) : ConnectionStore :=
  { all := dictAdd s.all c
    by_origin :=
      match alistLookup s.by_origin c.origin with
      | some conns => alistSet s.by_origin c.origin (dictAdd conns c)
      | none => alistSet s.by_origin c.origin [c] }

/-- Embedding of `ConnectionStore.remove`.  The source raises `KeyError`
when the connection is absent; this total version then leaves the store
unchanged, and the pool-level step relation only removes present
connections. -/
def ConnectionStore.remove (s : ConnectionStore) (c : Conn) :
    ConnectionStore :=
  { all := s.all.erase c
    by_origin :=
      match alistLookup s.by_origin c.origin with
      | none => s.by_origin
      | some conns =>
        let conns2 := conns.erase c
        if conns2.isEmpty then alistDel s.by_origin c.origin
        else alistSet s.by_origin c.origin conns2 }

/-- Embedding of `ConnectionStore.pop_by_origin`.  A missing origin key
returns `None`.  Otherwise `next(reversed(list(connections.keys())))` is the
most recently inserted key of the inner dictionary, i.e. its last element;
it is deleted from the inner dictionary (dictionary keys are unique, so
deleting the last key is `dropLast`), the inner dictionary is dropped when
it becomes empty, and the connection is deleted from `all`.  An empty inner
dictionary would raise `StopIteration` in the source; the store keeps inner
dictionaries nonempty, and this embedding then returns `none`. -/
def ConnectionStore.pop_by_origin (s : ConnectionStore) (o : Origin) :
    Option Conn × ConnectionStore :=
  match alistLookup s.by_origin o with
  | none => (none, s)
  | some conns =>
    match conns.getLast? with
    | none => (none, s)
    | some c =>
      let conns2 := conns.dropLast
      let byo :=
        if conns2.isEmpty then alistDel s.by_origin o
        else alistSet s.by_origin o conns2
      (some c, { all := s.all.erase c, by_origin := byo })

/-- Embedding of `ConnectionStore.clear`. -/
def ConnectionStore.clear (_ : ConnectionStore) : ConnectionStore :=
  ConnectionStore.empty

/-- Embedding of `ConnectionStore.__len__`: the size of the `all`
dictionary. -/
def ConnectionStore.length (s : ConnectionStore) : Nat :=
  s.all.length

/-- Modelled from the spec (6. EXTERNAL INTERFACES): `PoolLimits` holds the
optional `soft_limit` and `hard_limit`; `config.py` is not part of the
provided sources. -/
structure PoolLimits where
  soft_limit : Option Nat
  hard_limit : Option Nat
deriving DecidableEq, Repr

/-- An error escaping an acquire: `poolTimeout` is the `PoolTimeout` of
`exceptions.py`, raised when waiting for a permit times out; `typeError` is
the Python `TypeError` raised by the connection constructor call of
connection_pool.py line 118-123, which passes the keyword argument
`pool_release_func` to `HTTPConnection.__init__` (connection.py lines
19-25), whose parameter is named `release_func`. -/
inductive PoolError where
  | poolTimeout
  | typeError
deriving DecidableEq, Repr

/-- Modelled from the spec (4.B Pool semaphore): the pool semaphore of
`streams.py`, which is not part of the provided sources.  It is a counter
bounded by `hard_limit`; when `hard_limit` is unset, acquire and release are
no-ops.  `available` is the number of remaining permits and is meaningful
only when `hard_limit` is set. -/
structure PoolSemaphore where
  hard_limit : Option Nat
  available : Nat
deriving DecidableEq, Repr

/-- Modelled from the spec (4.B): a fresh semaphore holds `hard_limit`
permits. -/
def PoolSemaphore.init (limits : PoolLimits) : PoolSemaphore :=
  { hard_limit := limits.hard_limit, available := limits.hard_limit.getD 0 }

/-- Modelled from the spec (4.B): `acquire(timeout)` decrements the counter;
with no permit available it blocks, and in this sequential model (no
concurrent releaser) the wait can only end in the deadline elapsing, which
fails with `PoolTimeout` without consuming a permit.  With `hard_limit`
unset, acquire is a no-op. -/
def PoolSemaphore.acquire (s : PoolSemaphore) : Option PoolSemaphore :=
  match s.hard_limit with
  | none => some s
  | some _ =>
    if 0 < s.available then some { s with available := s.available - 1 }
    else none

/-- Modelled from the spec (4.B): `release()` increments the counter; a
no-op when `hard_limit` is unset. -/
def PoolSemaphore.release (s : PoolSemaphore) : PoolSemaphore :=
  match s.hard_limit with
  | none => s
  | some _ => { s with available := s.available + 1 }

/-- Embedding of `ConnectionPool` state (src/httpcore/connection_pool.py,
lines 79-98): the soft limit from `limits`, the closed flag, the semaphore
and the two connection stores. -/
structure ConnectionPool where
  soft_limit : Option Nat
  is_closed : Bool
  max_connections : PoolSemaphore
  keepalive_connections : ConnectionStore
  active_connections : ConnectionStore
deriving DecidableEq, Repr

/-- Embedding of `ConnectionPool.__init__`. -/
def ConnectionPool.init (limits : PoolLimits) : ConnectionPool :=
  { soft_limit := limits.soft_limit
    is_closed := false
    max_connections := PoolSemaphore.init limits
    keepalive_connections := ConnectionStore.empty
    active_connections := ConnectionStore.empty }

/-- Embedding of the `ConnectionPool.num_connections` property. -/
def ConnectionPool.num_connections (p : ConnectionPool) : Nat :=
  p.keepalive_connections.length + p.active_connections.length

/-- Embedding of `ConnectionPool.acquire_connection` (lines 111-127).  The
keepalive store is popped for the origin; a popped connection is added to
the active store and returned whether or not it is closed (the source
consults no closed state here).  When the pop yields no connection, a
permit is acquired — possibly failing with `PoolTimeout`, which leaves the
pool unmodified because nothing was mutated before the await — and the
source then evaluates
`HTTPConnection(origin, ssl=..., timeout=..., pool_release_func=self.release_connection)`
(line 118-123).  `HTTPConnection.__init__` (connection.py lines 19-25) has
no parameter named `pool_release_func` (its parameter is `release_func`),
so this call raises `TypeError`: no connection object is constructed, the
`active_connections.add` on line 125 is never reached, and the exception
propagates with the permit already consumed. -/
def ConnectionPool.acquire_connection (p : ConnectionPool)
    (origin : Origin) : Except PoolError Conn × ConnectionPool :=
  match p.keepalive_connections.pop_by_origin origin with
  | (some c, ka) =>
    (Except.ok c,
     { p with
        keepalive_connections := ka
        active_connections := p.active_connections.add c })
  | (none, _) =>
    match p.max_connections.acquire with
    | none => (Except.error PoolError.poolTimeout, p)
    | some sem =>
      (Except.error PoolError.typeError, { p with max_connections := sem })

/-- Embedding of `ConnectionPool.release_connection` (lines 129-142).  The
second component records whether `await connection.close()` was executed
(the soft-limit eviction branch). -/
def ConnectionPool.release_connection (p : ConnectionPool)
    (closedIds : List Nat) (c : Conn) : ConnectionPool × Bool :=
  if Conn.is_closed closedIds c then
    ({ p with
        active_connections := p.active_connections.remove c
        max_connections := p.max_connections.release }, false)
  else if
      (match p.soft_limit with
       | some soft => decide (soft < p.num_connections)
       | none => false) then
    ({ p with
        active_connections := p.active_connections.remove c
        max_connections := p.max_connections.release }, true)
  else
    ({ p with
        active_connections := p.active_connections.remove c
        keepalive_connections := p.keepalive_connections.add c }, false)

/-- Embedding of `ConnectionPool.close` (lines 144-149): mark the pool
closed, snapshot and clear the keepalive store, and return the snapshot,
each connection of which the source then closes. -/
def ConnectionPool.close (p : ConnectionPool) : ConnectionPool × List Conn :=
  ({ p with
      is_closed := true
      keepalive_connections := p.keepalive_connections.clear },
   p.keepalive_connections.all)

/-- Embedding of the pool-level part of `ConnectionPool.send`
(lines 100-109): `send` acquires a connection for the request's origin and
then delegates to `connection.send`; no pool state is consulted beyond the
acquisition, and in particular `is_closed` is never read.  An exception
raised during the acquisition (`PoolTimeout`, or the `TypeError` of the
miss path) propagates out of `send`. -/
def ConnectionPool.send (p : ConnectionPool) (origin : Origin) :
    Except PoolError Conn × ConnectionPool :=
  p.acquire_connection origin

/-- Events driving the store-based pool.  `acquire` carries the requested
origin; `release` names the connection the engine hands back; `markClosed`
is the environment event by which the engine or the peer closes a
connection (the engine code is outside the pool files); `close` is
`ConnectionPool.close`. -/
inductive PoolOp where
  | acquire (origin : Origin)
  | release (connId : Nat)
  | markClosed (connId : Nat)
  | close
deriving DecidableEq, Repr

/-- A pool together with the engine-side closed flags of the connection
objects. -/
structure PoolSys where
  pool : ConnectionPool
  closedIds : List Nat
deriving DecidableEq, Repr

/-- The initial system: a fresh pool, no closed connections. -/
def PoolSys.init (limits : PoolLimits) : PoolSys :=
  { pool := ConnectionPool.init limits, closedIds := [] }

/-- One event of the store-based pool.  A failed acquire (`PoolTimeout`,
or the `TypeError` of the miss path) leaves the pool as the source left it;
a release of a connection that is not in the active store raises `KeyError`
in the source before any mutation, so the state is unchanged. -/
def PoolSys.step (s : PoolSys) (op : PoolOp) : PoolSys :=
  match op with
  | PoolOp.acquire origin =>
    { s with pool := (s.pool.acquire_connection origin).2 }
  | PoolOp.release connId =>
    match s.pool.active_connections.all.find? (fun c => c.id == connId) with
    | some c =>
      { s with pool := (s.pool.release_connection s.closedIds c).1 }
    | none => s
  | PoolOp.markClosed connId =>
    { s with closedIds := connId :: s.closedIds }
  | PoolOp.close =>
    { s with pool := s.pool.close.1 }

/-- Run a sequence of events from a state. -/
def PoolSys.run (s : PoolSys) (ops : List PoolOp) : PoolSys :=
  ops.foldl PoolSys.step s

/-- Embedding of `ConnectionSemaphore` (src/httpcore/pool.py,
lines 107-118): with `max_connections = None` no `semaphore` attribute is
created and acquire and release are no-ops; otherwise it wraps a bounded
semaphore whose internal counter is `value`. -/
structure ConnectionSemaphore where
  max_connections : Option Nat
  value : Nat
deriving DecidableEq, Repr

/-- Embedding of `ConnectionSemaphore` construction: the counter starts at
`max_connections` when that is set. -/
def ConnectionSemaphore.init (maxConnections : Option Nat) :
    ConnectionSemaphore :=
  { max_connections := maxConnections, value := maxConnections.getD 0 }

/-- Embedding of `ConnectionSemaphore.acquire` under
`asyncio.wait_for(..., pool_timeout)` (pool.py lines 70-73): with no
`semaphore` attribute the call returns at once; with a permit available the
counter is decremented; with the counter at zero the acquire blocks, and in
this sequential model the wait ends in `asyncio.TimeoutError`, a cancelled
waiter consuming no permit. -/
def ConnectionSemaphore.acquire (s : ConnectionSemaphore) :
    Option ConnectionSemaphore :=
  match s.max_connections with
  | none => some s
  | some _ =>
    if 0 < s.value then some { s with value := s.value - 1 } else none

/-- Embedding of `ConnectionSemaphore.release`. -/
def ConnectionSemaphore.release (s : ConnectionSemaphore) :
    ConnectionSemaphore :=
  match s.max_connections with
  | none => s
  | some _ => { s with value := s.value + 1 }

/-- Embedding of the counter-based `ConnectionPool` state
(src/httpcore/pool.py, lines 18-37), named `PoolB` here to keep the two
implementations apart.  Active connections are only counted, not stored;
keepalive connections live in per-origin Python lists.  The counters are
Python integers, so they are embedded as `Int`. -/
structure PoolB where
  soft_limit : Option Nat
  is_closed : Bool
  num_active_connections : Int
  num_keepalive_connections : Int
  keepalive_connections : List (Origin × List Conn)
  max_connections : ConnectionSemaphore
deriving DecidableEq, Repr

/-- Embedding of the counter-based `ConnectionPool.__init__`. -/
def PoolB.init (limits : PoolLimits) : PoolB :=
  { soft_limit := limits.soft_limit
    is_closed := false
    num_active_connections := 0
    num_keepalive_connections := 0
    keepalive_connections := []
    max_connections := ConnectionSemaphore.init limits.hard_limit }

/-- Embedding of the `num_connections` property of pool.py. -/
def PoolB.num_connections (p : PoolB) : Int :=
  p.num_active_connections + p.num_keepalive_connections

/-- Embedding of the except-branch of `PoolB.acquire_connection`
(pool.py lines 64-80): acquire a permit under the pool timeout, failing
with `PoolTimeout` (nothing was mutated before the await), then construct a
fresh `Connection` and count it active. -/
def PoolB.acquire_miss (p : PoolB) (origin : Origin) (freshId : Nat) :
    Except PoolError Conn × PoolB :=
  match p.max_connections.acquire with
  | none => (Except.error PoolError.poolTimeout, p)
  | some sem =>
    (Except.ok { id := freshId, origin := origin },
     { p with
        max_connections := sem
        num_active_connections := p.num_active_connections + 1 })

/-- Embedding of `ConnectionPool.acquire_connection` of pool.py
(lines 54-82).  The try-branch pops the last element of the origin's
keepalive list (`list.pop()`), deletes the list when it becomes empty, and
moves one unit from the keepalive counter to the active counter.  A missing
origin key raises `KeyError`, and `pop()` on an empty list raises
`IndexError` before mutating it; both fall into the except-branch
`PoolB.acquire_miss`. -/
def PoolB.acquire_connection (p : PoolB) (origin : Origin) (freshId : Nat) :
    Except PoolError Conn × PoolB :=
  match alistLookup p.keepalive_connections origin with
  | none => p.acquire_miss origin freshId
  | some conns =>
    match conns.getLast? with
    | none => p.acquire_miss origin freshId
    | some c =>
      let rest := conns.dropLast
      let ka :=
        if rest.isEmpty then alistDel p.keepalive_connections origin
        else alistSet p.keepalive_connections origin rest
      (Except.ok c,
       { p with
          keepalive_connections := ka
          num_keepalive_connections := p.num_keepalive_connections - 1
          num_active_connections := p.num_active_connections + 1 })

/-- Embedding of `ConnectionPool.release_connection` of pool.py
(lines 84-101).  The second component records whether
`await connection.close()` was executed. -/
def PoolB.release_connection (p : PoolB) (closedIds : List Nat) (c : Conn) :
    PoolB × Bool :=
  if Conn.is_closed closedIds c then
    ({ p with
        max_connections := p.max_connections.release
        num_active_connections := p.num_active_connections - 1 }, false)
  else if
      (match p.soft_limit with
       | some soft => decide ((soft : Int) < p.num_connections)
       | none => false) then
    ({ p with
        max_connections := p.max_connections.release
        num_active_connections := p.num_active_connections - 1 }, true)
  else
    ({ p with
        num_active_connections := p.num_active_connections - 1
        num_keepalive_connections := p.num_keepalive_connections + 1
        keepalive_connections :=
          match alistLookup p.keepalive_connections c.origin with
          | some conns =>
            alistSet p.keepalive_connections c.origin (conns ++ [c])
          | none => alistSet p.keepalive_connections c.origin [c] }, false)

/-- The number of connections stored across all per-origin keepalive lists
of pool.py. -/
def keepaliveCount (m : List (Origin × List Conn)) : Nat :=
  (m.map (fun e => e.2.length)).sum

/-- Events driving the counter-based pool.  Because pool.py stores no
active connections, the handed-out connections are tracked alongside the
pool (the `leased` list below): the `on_release` callback is only ever
invoked by the engine of a connection that `acquire_connection` handed out
and that has not been released since. -/
inductive PoolBOp where
  | acquire (origin : Origin) (freshId : Nat)
  | release (connId : Nat)
  | markClosed (connId : Nat)
deriving DecidableEq, Repr

/-- The counter-based pool, the connections currently handed out
(`leased`), and the engine-side closed flags. -/
structure PoolBSys where
  pool : PoolB
  leased : List Conn
  closedIds : List Nat
deriving DecidableEq, Repr

/-- The initial system for the counter-based pool. -/
def PoolBSys.init (limits : PoolLimits) : PoolBSys :=
  { pool := PoolB.init limits, leased := [], closedIds := [] }

/-- One event of the counter-based pool.  A release names a leased
connection; a release of an id that is not leased does not correspond to
any callback invocation and leaves the state unchanged. -/
def PoolBSys.step (s : PoolBSys) (op : PoolBOp) : PoolBSys :=
  match op with
  | PoolBOp.acquire origin freshId =>
    match s.pool.acquire_connection origin freshId with
    | (Except.ok c, p2) => { s with pool := p2, leased := c :: s.leased }
    | (Except.error _, p2) => { s with pool := p2 }
  | PoolBOp.release connId =>
    match s.leased.find? (fun c => c.id == connId) with
    | some c =>
      { s with
          pool := (s.pool.release_connection s.closedIds c).1
          leased := s.leased.erase c }
    | none => s
  | PoolBOp.markClosed connId =>
    { s with closedIds := connId :: s.closedIds }

/-- Run a sequence of events of the counter-based pool. -/
def PoolBSys.run (s : PoolBSys) (ops : List PoolBOp) : PoolBSys :=
  ops.foldl PoolBSys.step s

/-- The protocol negotiated for a transport, reported via ALPN by the
`connect` function of `streams.py` (not part of the provided sources);
absence of ALPN implies HTTP/1.1. -/
inductive Protocol where
  | http11
  | http2
deriving DecidableEq, Repr

/-- A protocol engine (`HTTP11Connection` or `HTTP2Connection`; their
modules are not part of the provided sources) as the facade sees it:
`engineId` is the object identity, recording which transport open created
it, and `closed` is its `is_closed` state. -/
structure Engine where
  engineId : Nat
  closed : Bool
deriving DecidableEq, Repr

/-- Embedding of the `HTTPConnection` facade state
(src/httpcore/connection.py, lines 18-31): the origin and the two optional
engines, both `None` until the first connect.  `connectCount` counts the
completed transport opens and supplies engine object identities. -/
structure HTTPConn where
  origin : Origin
  h11_connection : Option Engine
  h2_connection : Option Engine
  connectCount : Nat
deriving DecidableEq, Repr

/-- Embedding of `HTTPConnection.__init__`: no engine is instantiated. -/
def HTTPConn.init (origin : Origin) : HTTPConn :=
  { origin := origin
    h11_connection := none
    h2_connection := none
    connectCount := 0 }

/-- Embedding of `HTTPConnection.connect` (lines 51-86): open the transport
(the negotiated protocol is reported by the ALPN of the stream opener) and
instantiate the HTTP/2 engine when HTTP/2 was negotiated, the HTTP/1.1
engine otherwise. -/
def HTTPConn.connect (s : HTTPConn) (negotiated : Protocol) : HTTPConn :=
  let engine : Engine := { engineId := s.connectCount, closed := false }
  match negotiated with
  | Protocol.http2 =>
    { s with h2_connection := some engine, connectCount := s.connectCount + 1 }
  | Protocol.http11 =>
    { s with h11_connection := some engine, connectCount := s.connectCount + 1 }

/-- Embedding of `HTTPConnection.send` (lines 33-49): connect first when
neither engine exists, then delegate to the HTTP/2 engine when present and
to the HTTP/1.1 engine otherwise.  The second component is the engine the
request was sent on (`none` would be the unreachable failed assertion). -/
def HTTPConn.send (s : HTTPConn) (negotiated : Protocol) :
    HTTPConn × Option Engine :=
  let s1 :=
    if s.h11_connection = none ∧ s.h2_connection = none then
      s.connect negotiated
    else s
  match s1.h2_connection with
  | some engine => (s1, some engine)
  | none => (s1, s1.h11_connection)

/-- Run a sequence of sends, keeping only the facade state. -/
def HTTPConn.sendMany (s : HTTPConn) (negotiations : List Protocol) :
    HTTPConn :=
  negotiations.foldl (fun st n => (st.send n).1) s

/-- Embedding of the `HTTPConnection.is_closed` property (lines 98-104):
the HTTP/2 engine's state when that engine exists, otherwise the HTTP/1.1
engine's state; with neither engine the `assert` fails instead of returning
a boolean, embedded as `none`. -/
def HTTPConn.is_closed (s : HTTPConn) : Option Bool :=
  match s.h2_connection with
  | some engine => some engine.closed
  | none =>
    match s.h11_connection with
    | some engine => some engine.closed
    | none => none

/-- Embedding of `HTTPConnection.close` (lines 88-92): close the HTTP/2
engine when present, else the HTTP/1.1 engine when present, else do
nothing.  The result is the engine whose `close` was awaited; the facade
state itself is not modified. -/
def HTTPConn.close (s : HTTPConn) : Option Engine :=
  match s.h2_connection with
  | some engine => some engine
  | none =>
    match s.h11_connection with
    | some engine => some engine
    | none => none

/-- The connections of a list whose origin is `o`, in list order. -/
def connsFor (l : List Conn) (o : Origin) : List Conn :=
  l.filter (fun c => decide (c.origin = o))

/-- The keys of an association list, in order. -/
def alistKeys (m : List (Origin × List Conn)) : List Origin :=
  m.map Prod.fst

/-- Well-formedness of a `ConnectionStore`, maintained by its operations
from the empty store: the `all` dictionary has no duplicate keys, the
`by_origin` dictionary has no duplicate keys, each inner dictionary holds
exactly the connections of `all` with that origin in insertion order, and
inner dictionaries are never left empty. -/
structure ConnectionStore.WF (s : ConnectionStore) : Prop where
  all_nodup : s.all.Nodup
  keys_nodup : (alistKeys s.by_origin).Nodup
  corr : ∀ o, alistLookupD s.by_origin o = connsFor s.all o
  entries_ne_nil : ∀ o l, alistLookup s.by_origin o = some l → l ≠ []

/-- The quantity conserved by the store-based pool: available permits plus
stored connections. -/
def poolMeasure (s : PoolSys) : Nat :=
  s.pool.max_connections.available + s.pool.active_connections.length
    + s.pool.keepalive_connections.length

/-- Well-formedness of both stores of the store-based pool. -/
def PoolSysWF (s : PoolSys) : Prop :=
  s.pool.active_connections.WF ∧ s.pool.keepalive_connections.WF

/-- The inductive invariant of the store-based pool under a hard limit of
`K` permits. -/
def PoolSysInv (K : Nat) (s : PoolSys) : Prop :=
  s.pool.max_connections.hard_limit = some K ∧
  poolMeasure s ≤ K ∧
  PoolSysWF s

/-- The inductive invariant of the counter-based pool: the keepalive
counter counts the stored keepalive connections and the active counter
counts the leased connections. -/
def PoolBSysInv (s : PoolBSys) : Prop :=
  s.pool.num_keepalive_connections
      = (keepaliveCount s.pool.keepalive_connections : Int) ∧
  s.pool.num_active_connections = (s.leased.length : Int)

/-- A sample origin for concrete evaluations. -/
def originA : Origin :=
  { scheme := Scheme.http, host := "a", port := 80 }

/-- A second sample origin, distinct from `originA`. -/
def originB : Origin :=
  { scheme := Scheme.http, host := "b", port := 80 }

/-- A sample connection object. -/
def sampleConn : Conn :=
  { id := 7, origin := originA }

/-- A sample store-based pool with one active connection. -/
def samplePool : ConnectionPool :=
  { soft_limit := none
    is_closed := false
    max_connections := { hard_limit := some 2, available := 1 }
    keepalive_connections := ConnectionStore.empty
    active_connections :=
      { all := [sampleConn], by_origin := [(originA, [sampleConn])] } }

/-- A sample counter-based pool with no free permit and no keepalive
connections. -/
def samplePoolB : PoolB :=
  { soft_limit := none
    is_closed := false
    num_active_connections := 1
    num_keepalive_connections := 0
    keepalive_connections := []
    max_connections := { max_connections := some 1, value := 0 } }

/-- A store-based pool whose keepalive store holds `sampleConn` for
`originA`, the store contents built with the store's own `add` operation.
(In this source tree the pool's own miss path can never construct a
connection — the constructor call raises `TypeError` — but
`acquire_connection` is defined over whatever the mutable stores hold, and
the hand-out path for a popped connection involves no constructor.) -/
def closedKeepalivePool : ConnectionPool :=
  { soft_limit := none
    is_closed := false
    max_connections := { hard_limit := some 1, available := 0 }
    keepalive_connections := ConnectionStore.empty.add sampleConn
    active_connections := ConnectionStore.empty }

/-- Store operations, for quantifying over every store reachable from the
empty store. -/
inductive StoreOp where
  | add (c : Conn)
  | remove (c : Conn)
  | pop (o : Origin)
deriving DecidableEq, Repr

/-- Apply one store operation. -/
def ConnectionStore.apply (s : ConnectionStore) (op : StoreOp) :
    ConnectionStore :=
  match op with
  | StoreOp.add c => s.add c
  | StoreOp.remove c => s.remove c
  | StoreOp.pop o => (s.pop_by_origin o).2

/-- Run a sequence of store operations from the empty store. -/
def ConnectionStore.runOps (ops : List StoreOp) : ConnectionStore :=
  ops.foldl ConnectionStore.apply ConnectionStore.empty

theorem mem_dictAdd {l : List Conn} {a c : Conn} :
    a ∈ dictAdd l c ↔ a ∈ l ∨ a = c := by
  unfold dictAdd
  split
  · constructor
    · exact fun h => Or.inl h
    · rintro (h | rfl)
      · exact h
      · assumption
  · simp

theorem dictAdd_of_mem {l : List Conn} {c : Conn} (h : c ∈ l) :
    dictAdd l c = l := by
  simp [dictAdd, h]

theorem dictAdd_of_not_mem {l : List Conn} {c : Conn} (h : c ∉ l) :
    dictAdd l c = l ++ [c] := by
  simp [dictAdd, h]

theorem dictAdd_nodup {l : List Conn} {c : Conn} (h : l.Nodup) :
    (dictAdd l c).Nodup := by
  unfold dictAdd
  split
  · exact h
  · rename_i hc
    rw [List.nodup_append]
    exact ⟨h, List.nodup_singleton c, by simpa using hc⟩

theorem length_dictAdd_le (l : List Conn) (c : Conn) :
    (dictAdd l c).length ≤ l.length + 1 := by
  unfold dictAdd
  split
  · omega
  · simp

theorem mem_connsFor {l : List Conn} {o : Origin} {c : Conn} :
    c ∈ connsFor l o ↔ c ∈ l ∧ c.origin = o := by
  simp [connsFor]

theorem connsFor_append (l1 l2 : List Conn) (o : Origin) :
    connsFor (l1 ++ l2) o = connsFor l1 o ++ connsFor l2 o := by
  simp [connsFor]

theorem connsFor_erase (l : List Conn) (c : Conn) (o : Origin) :
    connsFor (l.erase c) o
      = if c.origin = o then (connsFor l o).erase c else connsFor l o := by
  induction l with
  | nil => simp [connsFor]
  | cons x xs ih =>
    by_cases hx : x = c
    · subst hx
      rw [List.erase_cons_head]
      by_cases ho : x.origin = o
      · simp only [ho, if_pos]
        have : connsFor (x :: xs) o = x :: connsFor xs o := by
          simp [connsFor, ho]
        rw [this, List.erase_cons_head]
      · simp only [ho, if_neg, if_false]
        simp [connsFor, ho]
    · rw [List.erase_cons_tail (by simpa using hx)]
      by_cases ho : x.origin = o
      · have hx1 : connsFor (x :: xs.erase c) o = x :: connsFor (xs.erase c) o := by
          simp [connsFor, ho]
        have hx2 : connsFor (x :: xs) o = x :: connsFor xs o := by
          simp [connsFor, ho]
        rw [hx1, hx2, ih]
        by_cases hco : c.origin = o
        · simp only [hco, if_pos]
          rw [List.erase_cons_tail (by simpa using hx)]
        · simp [hco]
      · have hx1 : connsFor (x :: xs.erase c) o = connsFor (xs.erase c) o := by
          simp [connsFor, ho]
        have hx2 : connsFor (x :: xs) o = connsFor xs o := by
          simp [connsFor, ho]
        rw [hx1, hx2, ih]

theorem alistLookup_set_self (m : List (Origin × List Conn)) (o : Origin)
    (v : List Conn) : alistLookup (alistSet m o v) o = some v := by
  induction m with
  | nil => simp [alistSet, alistLookup]
  | cons e rest ih =>
    obtain ⟨oKey, vKey⟩ := e
    by_cases h : oKey = o
    · simp [alistSet, alistLookup, h]
    · simp [alistSet, alistLookup, h, ih]

theorem alistLookup_set_ne (m : List (Origin × List Conn)) {o oo : Origin}
    (v : List Conn) (h : oo ≠ o) :
    alistLookup (alistSet m o v) oo = alistLookup m oo := by
  have hno : ¬o = oo := fun hh => h hh.symm
  induction m with
  | nil =>
    simp only [alistSet, alistLookup]
    rw [if_neg hno]
  | cons e rest ih =>
    obtain ⟨oKey, vKey⟩ := e
    by_cases hk : oKey = o
    · subst hk
      simp only [alistSet, if_pos rfl, alistLookup]
      rw [if_neg hno, if_neg hno]
    · simp only [alistSet, if_neg hk, alistLookup]
      by_cases hko : oKey = oo
      · rw [if_pos hko, if_pos hko]
      · rw [if_neg hko, if_neg hko, ih]

theorem alistLookup_del_ne (m : List (Origin × List Conn)) {o oo : Origin}
    (h : oo ≠ o) : alistLookup (alistDel m o) oo = alistLookup m oo := by
  induction m with
  | nil => simp [alistDel]
  | cons e rest ih =>
    obtain ⟨oKey, vKey⟩ := e
    by_cases hk : oKey = o
    · subst hk
      have hd : alistDel ((oKey, vKey) :: rest) oKey = rest := by
        simp [alistDel]
      rw [hd]
      simp only [alistLookup]
      rw [if_neg (fun hh : oKey = oo => h hh.symm)]
    · simp only [alistDel, if_neg hk, alistLookup]
      by_cases hko : oKey = oo
      · rw [if_pos hko, if_pos hko]
      · rw [if_neg hko, if_neg hko, ih]

theorem alistLookup_eq_none_iff (m : List (Origin × List Conn)) (o : Origin) :
    alistLookup m o = none ↔ o ∉ alistKeys m := by
  induction m with
  | nil => simp [alistLookup, alistKeys]
  | cons e rest ih =>
    obtain ⟨oKey, vKey⟩ := e
    by_cases hk : oKey = o
    · simp [alistLookup, alistKeys, hk]
    · simp only [alistLookup, if_neg hk, alistKeys, List.map_cons,
        List.mem_cons]
      simp only [alistKeys] at ih
      constructor
      · intro hnone hmem
        rcases hmem with hh | hh
        · exact hk hh.symm
        · exact (ih.mp hnone) hh
      · intro hnot
        exact ih.mpr (fun hh => hnot (Or.inr hh))

theorem alistLookup_del_self (m : List (Origin × List Conn)) (o : Origin)
    (h : (alistKeys m).Nodup) : alistLookup (alistDel m o) o = none := by
  induction m with
  | nil => simp [alistDel, alistLookup]
  | cons e rest ih =>
    obtain ⟨oKey, vKey⟩ := e
    have hrest : (alistKeys rest).Nodup := (List.nodup_cons.mp h).2
    by_cases hk : oKey = o
    · subst hk
      simp only [alistDel, if_pos rfl]
      rw [alistLookup_eq_none_iff]
      exact (List.nodup_cons.mp h).1
    · simp [alistDel, alistLookup, hk, ih hrest]

theorem alistSet_of_lookup_eq (m : List (Origin × List Conn)) {o : Origin}
    {v : List Conn} (h : alistLookup m o = some v) : alistSet m o v = m := by
  induction m with
  | nil => simp [alistLookup] at h
  | cons e rest ih =>
    obtain ⟨oKey, vKey⟩ := e
    by_cases hk : oKey = o
    · subst hk
      have hv : vKey = v := by
        simp [alistLookup] at h
        exact h
      subst hv
      simp [alistSet]
    · simp only [alistLookup, if_neg hk] at h
      simp [alistSet, hk, ih h]

theorem alistKeys_set (m : List (Origin × List Conn)) (o : Origin)
    (v : List Conn) :
    alistKeys (alistSet m o v)
      = if o ∈ alistKeys m then alistKeys m else alistKeys m ++ [o] := by
  induction m with
  | nil => simp [alistSet, alistKeys]
  | cons e rest ih =>
    obtain ⟨oKey, vKey⟩ := e
    by_cases hk : oKey = o
    · simp [alistSet, alistKeys, hk]
    · have hne : ¬o = oKey := fun hh => hk hh.symm
      simp only [alistSet, if_neg hk, alistKeys, List.map_cons]
      simp only [alistKeys] at ih
      rw [ih]
      by_cases hm : o ∈ List.map Prod.fst rest
      · rw [if_pos hm, if_pos (List.mem_cons.mpr (Or.inr hm))]
      · rw [if_neg hm, if_neg (by
          intro hh
          rcases List.mem_cons.mp hh with hh2 | hh2
          · exact hne hh2
          · exact hm hh2)]
        rfl

theorem alistKeys_del (m : List (Origin × List Conn)) (o : Origin) :
    alistKeys (alistDel m o) = (alistKeys m).erase o := by
  induction m with
  | nil => simp [alistDel, alistKeys]
  | cons e rest ih =>
    obtain ⟨oKey, vKey⟩ := e
    by_cases hk : oKey = o
    · subst hk
      simp [alistDel, alistKeys, List.erase_cons_head]
    · simp only [alistDel, if_neg hk, alistKeys, List.map_cons]
      rw [List.erase_cons_tail (by simpa using hk)]
      simp only [alistKeys] at ih
      rw [ih]

theorem alistKeys_set_nodup {m : List (Origin × List Conn)} {o : Origin}
    {v : List Conn} (h : (alistKeys m).Nodup) :
    (alistKeys (alistSet m o v)).Nodup := by
  rw [alistKeys_set]
  split
  · exact h
  · rename_i hm
    rw [List.nodup_append]
    exact ⟨h, List.nodup_singleton o, by simpa using hm⟩

theorem alistKeys_del_nodup {m : List (Origin × List Conn)} {o : Origin}
    (h : (alistKeys m).Nodup) : (alistKeys (alistDel m o)).Nodup := by
  rw [alistKeys_del]
  exact h.erase o

theorem ConnectionStore.WF.lookup_eq {s : ConnectionStore} (hwf : s.WF)
    {o : Origin} {l : List Conn}
    (h : alistLookup s.by_origin o = some l) : l = connsFor s.all o := by
  have hc := hwf.corr o
  rw [alistLookupD, h] at hc
  simpa using hc

theorem ConnectionStore.WF.connsFor_of_lookup_none {s : ConnectionStore}
    (hwf : s.WF) {o : Origin}
    (h : alistLookup s.by_origin o = none) : connsFor s.all o = [] := by
  have hc := hwf.corr o
  rw [alistLookupD, h] at hc
  simpa using hc.symm

theorem ConnectionStore.WF.lookup_of_ne_nil {s : ConnectionStore}
    (hwf : s.WF) {o : Origin} (h : connsFor s.all o ≠ []) :
    alistLookup s.by_origin o = some (connsFor s.all o) := by
  cases hl : alistLookup s.by_origin o with
  | none => exact absurd (hwf.connsFor_of_lookup_none hl) h
  | some l => rw [hwf.lookup_eq hl]

theorem connectionStore_empty_wf : ConnectionStore.empty.WF := by
  constructor
  · exact List.nodup_nil
  · exact List.nodup_nil
  · intro o
    simp [ConnectionStore.empty, alistLookupD, alistLookup, connsFor]
  · intro o l h
    simp [ConnectionStore.empty, alistLookup] at h

theorem add_eq_self_of_mem {s : ConnectionStore} {c : Conn} (hwf : s.WF)
    (hc : c ∈ s.all) : s.add c = s := by
  have hmem : c ∈ connsFor s.all c.origin := mem_connsFor.mpr ⟨hc, rfl⟩
  have hne : connsFor s.all c.origin ≠ [] := by
    intro hh
    rw [hh] at hmem
    exact absurd hmem (List.not_mem_nil c)
  have hl := hwf.lookup_of_ne_nil hne
  simp only [ConnectionStore.add, hl, dictAdd_of_mem hc, dictAdd_of_mem hmem,
    alistSet_of_lookup_eq s.by_origin hl]

theorem connectionStore_add_wf {s : ConnectionStore} {c : Conn}
    (hwf : s.WF) : (s.add c).WF := by
  by_cases hc : c ∈ s.all
  · rw [add_eq_self_of_mem hwf hc]
    exact hwf
  · have hall : (s.add c).all = s.all ++ [c] := by
      simp only [ConnectionStore.add]
      exact dictAdd_of_not_mem hc
    have hcf : c ∉ connsFor s.all c.origin := fun hh =>
      hc (mem_connsFor.mp hh).1
    have hlook : ∀ o, alistLookup (s.add c).by_origin o
        = if o = c.origin then some (connsFor s.all c.origin ++ [c])
          else alistLookup s.by_origin o := by
      intro o
      cases hl : alistLookup s.by_origin c.origin with
      | some conns =>
        have hby : (s.add c).by_origin
            = alistSet s.by_origin c.origin (dictAdd conns c) := by
          simp only [ConnectionStore.add, hl]
        have hconns := hwf.lookup_eq hl
        subst hconns
        rw [hby]
        by_cases ho : o = c.origin
        · subst ho
          rw [if_pos rfl, dictAdd_of_not_mem hcf, alistLookup_set_self]
        · rw [if_neg ho, alistLookup_set_ne _ _ ho]
      | none =>
        have hby : (s.add c).by_origin
            = alistSet s.by_origin c.origin [c] := by
          simp only [ConnectionStore.add, hl]
        have hnil := hwf.connsFor_of_lookup_none hl
        rw [hby]
        by_cases ho : o = c.origin
        · subst ho
          rw [if_pos rfl, alistLookup_set_self, hnil]
          rfl
        · rw [if_neg ho, alistLookup_set_ne _ _ ho]
    constructor
    · exact dictAdd_nodup hwf.all_nodup
    · cases hl : alistLookup s.by_origin c.origin with
      | some conns =>
        have hby : (s.add c).by_origin
            = alistSet s.by_origin c.origin (dictAdd conns c) := by
          simp only [ConnectionStore.add, hl]
        rw [hby]
        exact alistKeys_set_nodup hwf.keys_nodup
      | none =>
        have hby : (s.add c).by_origin
            = alistSet s.by_origin c.origin [c] := by
          simp only [ConnectionStore.add, hl]
        rw [hby]
        exact alistKeys_set_nodup hwf.keys_nodup
    · intro o
      rw [alistLookupD, hlook o, hall, connsFor_append]
      by_cases ho : o = c.origin
      · subst ho
        have hone : connsFor [c] c.origin = [c] := by simp [connsFor]
        rw [if_pos rfl, hone]
        rfl
      · have hco : ¬c.origin = o := fun hh => ho hh.symm
        have hzero : connsFor [c] o = [] := by simp [connsFor, hco]
        rw [if_neg ho, hzero, List.append_nil]
        exact hwf.corr o
    · intro o l h
      rw [hlook o] at h
      by_cases ho : o = c.origin
      · rw [if_pos ho] at h
        cases h
        simp
      · rw [if_neg ho] at h
        exact hwf.entries_ne_nil o l h

theorem remove_eq_self_of_not_mem {s : ConnectionStore} {c : Conn}
    (hwf : s.WF) (hc : c ∉ s.all) : s.remove c = s := by
  simp only [ConnectionStore.remove, List.erase_of_not_mem hc]
  cases hl : alistLookup s.by_origin c.origin with
  | none => rfl
  | some conns =>
    have hconns := hwf.lookup_eq hl
    have hcf : c ∉ conns := by
      rw [hconns]
      exact fun hh => hc (mem_connsFor.mp hh).1
    have hce : conns.erase c = conns := List.erase_of_not_mem hcf
    have hne : conns ≠ [] := hwf.entries_ne_nil _ _ hl
    simp only [hce]
    rw [if_neg (by simpa [List.isEmpty_iff] using hne),
      alistSet_of_lookup_eq s.by_origin hl]

theorem connectionStore_remove_wf {s : ConnectionStore} {c : Conn}
    (hwf : s.WF) : (s.remove c).WF := by
  by_cases hc : c ∈ s.all
  · have hmem : c ∈ connsFor s.all c.origin := mem_connsFor.mpr ⟨hc, rfl⟩
    have hne : connsFor s.all c.origin ≠ [] := by
      intro hh
      rw [hh] at hmem
      exact absurd hmem (List.not_mem_nil c)
    have hl := hwf.lookup_of_ne_nil hne
    have hall : (s.remove c).all = s.all.erase c := rfl
    have hby : (s.remove c).by_origin
        = (if ((connsFor s.all c.origin).erase c).isEmpty then
            alistDel s.by_origin c.origin
          else
            alistSet s.by_origin c.origin
              ((connsFor s.all c.origin).erase c)) := by
      simp only [ConnectionStore.remove, hl]
    have hlook : ∀ o, alistLookupD (s.remove c).by_origin o
        = if o = c.origin then (connsFor s.all c.origin).erase c
          else alistLookupD s.by_origin o := by
      intro o
      rw [hby]
      by_cases he : ((connsFor s.all c.origin).erase c).isEmpty
      · rw [if_pos he]
        have hnil : (connsFor s.all c.origin).erase c = [] :=
          List.isEmpty_iff.mp he
        by_cases ho : o = c.origin
        · subst ho
          rw [if_pos rfl, hnil, alistLookupD,
            alistLookup_del_self _ _ hwf.keys_nodup]
          rfl
        · rw [if_neg ho, alistLookupD, alistLookup_del_ne _ ho]
          rfl
      · rw [if_neg he]
        by_cases ho : o = c.origin
        · subst ho
          rw [if_pos rfl, alistLookupD, alistLookup_set_self]
          rfl
        · rw [if_neg ho, alistLookupD, alistLookup_set_ne _ _ ho]
          rfl
    constructor
    · rw [hall]
      exact hwf.all_nodup.erase c
    · rw [hby]
      split
      · exact alistKeys_del_nodup hwf.keys_nodup
      · exact alistKeys_set_nodup hwf.keys_nodup
    · intro o
      rw [hlook o, hall, connsFor_erase]
      by_cases ho : o = c.origin
      · rw [if_pos ho, if_pos ho.symm, ho]
      · rw [if_neg ho, if_neg (fun hh => ho hh.symm)]
        exact hwf.corr o
    · intro o l h
      rw [hby] at h
      by_cases he : ((connsFor s.all c.origin).erase c).isEmpty
      · rw [if_pos he] at h
        by_cases ho : o = c.origin
        · subst ho
          rw [alistLookup_del_self _ _ hwf.keys_nodup] at h
          cases h
        · rw [alistLookup_del_ne _ ho] at h
          exact hwf.entries_ne_nil o l h
      · rw [if_neg he] at h
        by_cases ho : o = c.origin
        · subst ho
          rw [alistLookup_set_self] at h
          cases h
          exact fun hh => he (by rw [hh]; rfl)
        · rw [alistLookup_set_ne _ _ ho] at h
          exact hwf.entries_ne_nil o l h
  · rw [remove_eq_self_of_not_mem hwf hc]
    exact hwf

theorem pop_by_origin_none_snd {s : ConnectionStore} {o : Origin}
    (h : (s.pop_by_origin o).1 = none) : (s.pop_by_origin o).2 = s := by
  cases hl : alistLookup s.by_origin o with
  | none => simp only [ConnectionStore.pop_by_origin, hl]
  | some conns =>
    cases hg : conns.getLast? with
    | none => simp only [ConnectionStore.pop_by_origin, hl, hg]
    | some c =>
      have h1 : (s.pop_by_origin o).1 = some c := by
        simp only [ConnectionStore.pop_by_origin, hl, hg]
      rw [h1] at h
      exact Option.noConfusion h

theorem pop_by_origin_fst {s : ConnectionStore} (hwf : s.WF) (o : Origin) :
    (s.pop_by_origin o).1 = (connsFor s.all o).getLast? := by
  rw [← hwf.corr o, alistLookupD]
  cases hl : alistLookup s.by_origin o with
  | none => simp only [ConnectionStore.pop_by_origin, hl, Option.getD_none,
      List.getLast?_nil]
  | some conns =>
    cases hg : conns.getLast? with
    | none =>
      simp only [ConnectionStore.pop_by_origin, hl, hg, Option.getD_some]
    | some c =>
      simp only [ConnectionStore.pop_by_origin, hl, hg, Option.getD_some]

theorem pop_by_origin_some_all {s : ConnectionStore} {o : Origin} {c : Conn}
    (h : (s.pop_by_origin o).1 = some c) :
    (s.pop_by_origin o).2.all = s.all.erase c := by
  cases hl : alistLookup s.by_origin o with
  | none =>
    have h1 : (s.pop_by_origin o).1 = none := by
      simp only [ConnectionStore.pop_by_origin, hl]
    rw [h1] at h
    exact Option.noConfusion h
  | some conns =>
    cases hg : conns.getLast? with
    | none =>
      have h1 : (s.pop_by_origin o).1 = none := by
        simp only [ConnectionStore.pop_by_origin, hl, hg]
      rw [h1] at h
      exact Option.noConfusion h
    | some c2 =>
      have h1 : (s.pop_by_origin o).1 = some c2 := by
        simp only [ConnectionStore.pop_by_origin, hl, hg]
      rw [h1] at h
      have hc2 : c2 = c := by simpa using h
      subst hc2
      simp only [ConnectionStore.pop_by_origin, hl, hg]

theorem pop_by_origin_some_mem {s : ConnectionStore} {o : Origin} {c : Conn}
    (hwf : s.WF) (h : (s.pop_by_origin o).1 = some c) :
    c ∈ s.all ∧ c.origin = o := by
  have hfst := pop_by_origin_fst hwf o
  rw [h] at hfst
  have hmem : c ∈ connsFor s.all o := by
    have hsplit := List.dropLast_append_getLast? c
      (Option.mem_def.mpr hfst.symm)
    rw [← hsplit]
    exact List.mem_append_right _ (by simp)
  exact ⟨(mem_connsFor.mp hmem).1, (mem_connsFor.mp hmem).2⟩

theorem connectionStore_pop_wf {s : ConnectionStore} (hwf : s.WF)
    (o : Origin) : (s.pop_by_origin o).2.WF := by
  cases hl : alistLookup s.by_origin o with
  | none =>
    have h1 : (s.pop_by_origin o).1 = none := by
      simp only [ConnectionStore.pop_by_origin, hl]
    rw [pop_by_origin_none_snd h1]
    exact hwf
  | some conns =>
    cases hg : conns.getLast? with
    | none =>
      have h1 : (s.pop_by_origin o).1 = none := by
        simp only [ConnectionStore.pop_by_origin, hl, hg]
      rw [pop_by_origin_none_snd h1]
      exact hwf
    | some c =>
      have hconns : conns = connsFor s.all o := hwf.lookup_eq hl
      have hsplit : conns.dropLast ++ [c] = conns :=
        List.dropLast_append_getLast? c (Option.mem_def.mpr hg)
      have hcm : c ∈ conns := by
        rw [← hsplit]
        exact List.mem_append_right _ (by simp)
      have hc_all : c ∈ s.all := by
        rw [hconns] at hcm
        exact (mem_connsFor.mp hcm).1
      have hc_origin : c.origin = o := by
        rw [hconns] at hcm
        exact (mem_connsFor.mp hcm).2
      have hnodup : conns.Nodup := by
        rw [hconns]
        exact hwf.all_nodup.filter _
      have hcd : c ∉ conns.dropLast := by
        have hnd2 : (conns.dropLast ++ [c]).Nodup := by
          rw [hsplit]
          exact hnodup
        rcases List.nodup_append.mp hnd2 with ⟨h1, h2, h3⟩
        intro hmemd
        exact h3 hmemd (by simp)
      have herase : conns.erase c = conns.dropLast := by
        conv_lhs => rw [← hsplit]
        rw [List.erase_append_right _ hcd]
        simp
      have hsnd : (s.pop_by_origin o).2
          = { all := s.all.erase c
              by_origin :=
                if conns.dropLast.isEmpty then alistDel s.by_origin o
                else alistSet s.by_origin o conns.dropLast } := by
        simp only [ConnectionStore.pop_by_origin, hl, hg]
      rw [hsnd]
      constructor
      · exact hwf.all_nodup.erase c
      · dsimp only
        split
        · exact alistKeys_del_nodup hwf.keys_nodup
        · exact alistKeys_set_nodup hwf.keys_nodup
      · intro oo
        dsimp only
        rw [connsFor_erase]
        by_cases hoo : oo = o
        · subst hoo
          rw [if_pos hc_origin, ← hconns, herase]
          by_cases he : conns.dropLast.isEmpty
          · rw [if_pos he, alistLookupD,
              alistLookup_del_self _ _ hwf.keys_nodup,
              List.isEmpty_iff.mp he]
            rfl
          · rw [if_neg he, alistLookupD, alistLookup_set_self]
            rfl
        · have hco : ¬c.origin = oo := fun hh =>
            hoo (hc_origin.symm.trans hh).symm
          rw [if_neg hco]
          by_cases he : conns.dropLast.isEmpty
          · rw [if_pos he, alistLookupD, alistLookup_del_ne _ hoo]
            exact hwf.corr oo
          · rw [if_neg he, alistLookupD, alistLookup_set_ne _ _ hoo]
            exact hwf.corr oo
      · intro oo l hlook
        dsimp only at hlook
        by_cases he : conns.dropLast.isEmpty
        · rw [if_pos he] at hlook
          by_cases hoo : oo = o
          · subst hoo
            rw [alistLookup_del_self _ _ hwf.keys_nodup] at hlook
            exact Option.noConfusion hlook
          · rw [alistLookup_del_ne _ hoo] at hlook
            exact hwf.entries_ne_nil oo l hlook
        · rw [if_neg he] at hlook
          by_cases hoo : oo = o
          · subst hoo
            rw [alistLookup_set_self] at hlook
            cases hlook
            intro hh
            exact he (by rw [hh]; rfl)
          · rw [alistLookup_set_ne _ _ hoo] at hlook
            exact hwf.entries_ne_nil oo l hlook

theorem poolSemaphore_acquire_some {sem sem2 : PoolSemaphore} {K : Nat}
    (hl : sem.hard_limit = some K) (h : sem.acquire = some sem2) :
    0 < sem.available ∧
      sem2 = { hard_limit := some K, available := sem.available - 1 } := by
  unfold PoolSemaphore.acquire at h
  rw [hl] at h
  by_cases ha : 0 < sem.available
  · rw [if_pos ha] at h
    cases h
    exact ⟨ha, by rw [← hl]⟩
  · rw [if_neg ha] at h
    exact Option.noConfusion h

theorem poolSemaphore_release_hard_limit (sem : PoolSemaphore) :
    sem.release.hard_limit = sem.hard_limit := by
  cases hsl : sem.hard_limit with
  | none => simp only [PoolSemaphore.release, hsl]
  | some K => simp only [PoolSemaphore.release, hsl]

theorem poolSemaphore_release_available {sem : PoolSemaphore} {K : Nat}
    (hl : sem.hard_limit = some K) :
    sem.release.available = sem.available + 1 := by
  simp only [PoolSemaphore.release, hl]

theorem release_connection_cases (p : ConnectionPool) (closedIds : List Nat)
    (c : Conn) :
    (p.release_connection closedIds c).1.active_connections
        = p.active_connections.remove c ∧
    (p.release_connection closedIds c).1.max_connections.hard_limit
        = p.max_connections.hard_limit ∧
    (((p.release_connection closedIds c).1.max_connections
          = p.max_connections.release ∧
        (p.release_connection closedIds c).1.keepalive_connections
          = p.keepalive_connections) ∨
      ((p.release_connection closedIds c).1.max_connections
          = p.max_connections ∧
        (p.release_connection closedIds c).1.keepalive_connections
          = p.keepalive_connections.add c)) := by
  unfold ConnectionPool.release_connection
  split
  · exact ⟨rfl, poolSemaphore_release_hard_limit p.max_connections,
      Or.inl ⟨rfl, rfl⟩⟩
  · split
    · exact ⟨rfl, poolSemaphore_release_hard_limit p.max_connections,
        Or.inl ⟨rfl, rfl⟩⟩
    · exact ⟨rfl, rfl, Or.inr ⟨rfl, rfl⟩⟩

theorem acquire_connection_cases (p : ConnectionPool) (o : Origin) :
    (∃ c, (p.keepalive_connections.pop_by_origin o).1 = some c ∧
      (p.acquire_connection o).1 = Except.ok c ∧
      (p.acquire_connection o).2
        = { p with
            keepalive_connections :=
              (p.keepalive_connections.pop_by_origin o).2
            active_connections := p.active_connections.add c }) ∨
    ((p.keepalive_connections.pop_by_origin o).1 = none ∧
      ((p.max_connections.acquire = none ∧
          (p.acquire_connection o).1
            = Except.error PoolError.poolTimeout ∧
          (p.acquire_connection o).2 = p) ∨
        (∃ sem2, p.max_connections.acquire = some sem2 ∧
          (p.acquire_connection o).1
            = Except.error PoolError.typeError ∧
          (p.acquire_connection o).2
            = { p with max_connections := sem2 }))) := by
  cases hp : p.keepalive_connections.pop_by_origin o with
  | mk fst snd =>
    cases fst with
    | some c =>
      left
      refine ⟨c, rfl, ?_, ?_⟩
      · simp only [ConnectionPool.acquire_connection, hp]
      · simp only [ConnectionPool.acquire_connection, hp]
    | none =>
      right
      refine ⟨rfl, ?_⟩
      cases hsem : p.max_connections.acquire with
      | none =>
        left
        refine ⟨rfl, ?_, ?_⟩
        · simp only [ConnectionPool.acquire_connection, hp, hsem]
        · simp only [ConnectionPool.acquire_connection, hp, hsem]
      | some sem2 =>
        right
        refine ⟨sem2, rfl, ?_, ?_⟩
        · simp only [ConnectionPool.acquire_connection, hp, hsem]
        · simp only [ConnectionPool.acquire_connection, hp, hsem]

theorem poolSys_step_wf {s : PoolSys} (h : PoolSysWF s) (op : PoolOp) :
    PoolSysWF (s.step op) := by
  obtain ⟨hact, hka⟩ := h
  cases op with
  | acquire origin =>
    have hstep : s.step (PoolOp.acquire origin)
        = { s with pool := (s.pool.acquire_connection origin).2 } :=
      rfl
    rw [hstep]
    rcases acquire_connection_cases s.pool origin with
      ⟨c, hpop, hfst, hsnd⟩ | ⟨hpop, ⟨hsem, hfst, hsnd⟩ | ⟨sem2, hsem, hfst, hsnd⟩⟩
    · rw [hsnd]
      refine ⟨connectionStore_add_wf hact, ?_⟩
      exact connectionStore_pop_wf hka origin
    · rw [hsnd]
      exact ⟨hact, hka⟩
    · rw [hsnd]
      exact ⟨hact, hka⟩
  | release connId =>
    cases hf : s.pool.active_connections.all.find? (fun c => c.id == connId)
      with
    | none =>
      have hstep : s.step (PoolOp.release connId) = s := by
        simp only [PoolSys.step, hf]
      rw [hstep]
      exact ⟨hact, hka⟩
    | some c =>
      have hstep : s.step (PoolOp.release connId)
          = { s with pool := (s.pool.release_connection s.closedIds c).1 } :=
        by simp only [PoolSys.step, hf]
      rw [hstep]
      obtain ⟨hactive, hhard, hrest⟩ :=
        release_connection_cases s.pool s.closedIds c
      constructor
      · show (s.pool.release_connection s.closedIds c).1.active_connections.WF
        rw [hactive]
        exact connectionStore_remove_wf hact
      · show
          (s.pool.release_connection s.closedIds c).1.keepalive_connections.WF
        rcases hrest with ⟨hsem, hkeep⟩ | ⟨hsem, hkeep⟩
        · rw [hkeep]
          exact hka
        · rw [hkeep]
          exact connectionStore_add_wf hka
  | markClosed connId => exact ⟨hact, hka⟩
  | close =>
    exact ⟨hact, connectionStore_empty_wf⟩

theorem poolSys_step_inv {K : Nat} {s : PoolSys} (h : PoolSysInv K s)
    (op : PoolOp) : PoolSysInv K (s.step op) := by
  obtain ⟨hlim, hmeas, hwf⟩ := h
  refine ⟨?_, ?_, poolSys_step_wf hwf op⟩ <;>
    simp only [poolMeasure, ConnectionStore.length] at hmeas ⊢
  · cases op with
    | acquire origin =>
      have hstep : s.step (PoolOp.acquire origin)
          = { s with pool := (s.pool.acquire_connection origin).2 } :=
        rfl
      rw [hstep]
      rcases acquire_connection_cases s.pool origin with
        ⟨c, hpop, hfst, hsnd⟩ |
          ⟨hpop, ⟨hsem, hfst, hsnd⟩ | ⟨sem2, hsem, hfst, hsnd⟩⟩
      · rw [hsnd]
        exact hlim
      · rw [hsnd]
        exact hlim
      · rw [hsnd]
        obtain ⟨hpos, hsem2⟩ := poolSemaphore_acquire_some hlim hsem
        rw [hsem2]
    | release connId =>
      cases hf : s.pool.active_connections.all.find? (fun c => c.id == connId)
        with
      | none =>
        have hstep : s.step (PoolOp.release connId) = s := by
          simp only [PoolSys.step, hf]
        rw [hstep]
        exact hlim
      | some c =>
        have hstep : s.step (PoolOp.release connId)
            = { s with
                pool := (s.pool.release_connection s.closedIds c).1 } := by
          simp only [PoolSys.step, hf]
        rw [hstep]
        obtain ⟨hactive, hhard, hrest⟩ :=
          release_connection_cases s.pool s.closedIds c
        show (s.pool.release_connection s.closedIds c).1.max_connections.hard_limit = some K
        rw [hhard]
        exact hlim
    | markClosed connId => exact hlim
    | close => exact hlim
  · cases op with
    | acquire origin =>
      have hstep : s.step (PoolOp.acquire origin)
          = { s with pool := (s.pool.acquire_connection origin).2 } :=
        rfl
      rw [hstep]
      rcases acquire_connection_cases s.pool origin with
        ⟨c, hpop, hfst, hsnd⟩ |
          ⟨hpop, ⟨hsem, hfst, hsnd⟩ | ⟨sem2, hsem, hfst, hsnd⟩⟩
      · rw [hsnd]
        dsimp only
        have hmem := pop_by_origin_some_mem hwf.2 hpop
        have hlen := pop_by_origin_some_all hpop
        have hkalen :
            (s.pool.keepalive_connections.pop_by_origin origin).2.all.length
              = s.pool.keepalive_connections.all.length - 1 := by
          rw [hlen]
          exact List.length_erase_of_mem hmem.1
        have hkapos : 0 < s.pool.keepalive_connections.all.length :=
          List.length_pos_of_mem hmem.1
        have haddlen := length_dictAdd_le s.pool.active_connections.all c
        have hadd : (s.pool.active_connections.add c).all
            = dictAdd s.pool.active_connections.all c := rfl
        rw [hadd, hkalen]
        omega
      · rw [hsnd]
        exact hmeas
      · rw [hsnd]
        obtain ⟨hpos, hsem2⟩ := poolSemaphore_acquire_some hlim hsem
        rw [hsem2]
        dsimp only
        omega
    | release connId =>
      cases hf : s.pool.active_connections.all.find? (fun c => c.id == connId)
        with
      | none =>
        have hstep : s.step (PoolOp.release connId) = s := by
          simp only [PoolSys.step, hf]
        rw [hstep]
        exact hmeas
      | some c =>
        have hstep : s.step (PoolOp.release connId)
            = { s with
                pool := (s.pool.release_connection s.closedIds c).1 } := by
          simp only [PoolSys.step, hf]
        rw [hstep]
        have hcm : c ∈ s.pool.active_connections.all :=
          List.mem_of_find?_eq_some hf
        have hactpos : 0 < s.pool.active_connections.all.length :=
          List.length_pos_of_mem hcm
        obtain ⟨hactive, hhard, hrest⟩ :=
          release_connection_cases s.pool s.closedIds c
        have hactlen :
            (s.pool.release_connection s.closedIds c).1.active_connections.all.length
              = s.pool.active_connections.all.length - 1 := by
          rw [hactive]
          exact List.length_erase_of_mem hcm
        rcases hrest with ⟨hsem, hkeep⟩ | ⟨hsem, hkeep⟩
        · have havail :
              (s.pool.release_connection s.closedIds c).1.max_connections.available
                = s.pool.max_connections.available + 1 := by
            rw [hsem]
            exact poolSemaphore_release_available hlim
          rw [havail, hactlen, hkeep]
          omega
        · have haddlen := length_dictAdd_le s.pool.keepalive_connections.all c
          rw [hactlen, hkeep, hsem]
          simp only [ConnectionStore.add]
          omega
    | markClosed connId => exact hmeas
    | close =>
      have hstep : s.step PoolOp.close
          = { s with pool := (s.pool.close).1 } := rfl
      rw [hstep]
      simp only [ConnectionPool.close, ConnectionStore.clear,
        ConnectionStore.empty, List.length_nil]
      omega

theorem poolSys_run_inv {K : Nat} {s : PoolSys} (h : PoolSysInv K s)
    (ops : List PoolOp) : PoolSysInv K (s.run ops) := by
  induction ops generalizing s with
  | nil => exact h
  | cons op rest ih => exact ih (poolSys_step_inv h op)

theorem poolSysInv_init (K : Nat) (soft : Option Nat) :
    PoolSysInv K
      (PoolSys.init { soft_limit := soft, hard_limit := some K }) := by
  refine ⟨rfl, ?_, connectionStore_empty_wf, connectionStore_empty_wf⟩
  simp [poolMeasure, PoolSys.init, ConnectionPool.init, PoolSemaphore.init,
    ConnectionStore.empty, ConnectionStore.length]

theorem poolSys_run_wf {s : PoolSys} (h : PoolSysWF s) (ops : List PoolOp) :
    PoolSysWF (s.run ops) := by
  induction ops generalizing s with
  | nil => exact h
  | cons op rest ih => exact ih (poolSys_step_wf h op)

theorem poolSysWF_init (limits : PoolLimits) :
    PoolSysWF (PoolSys.init limits) :=
  ⟨connectionStore_empty_wf, connectionStore_empty_wf⟩

/-- Counterexample to the parenthetical mechanism of C1: on a pool miss a
permit is consumed but no connection is created.  On a fresh pool with
`hard_limit = 1`, acquiring for `originA` pops nothing, consumes the single
permit (`available` drops from 1 to 0), and then the constructor call
raises `TypeError` — both stores stay empty and the permit leaks. -/
theorem acquire_miss_consumes_permit_without_connection :
    ((ConnectionPool.init
          { soft_limit := none, hard_limit := some 1 }).acquire_connection
        originA).1 = Except.error PoolError.typeError ∧
    ((ConnectionPool.init
          { soft_limit := none, hard_limit := some 1 }).acquire_connection
        originA).2.max_connections.available = 0 ∧
    ((ConnectionPool.init
          { soft_limit := none, hard_limit := some 1 }).acquire_connection
        originA).2.active_connections.length = 0 ∧
    ((ConnectionPool.init
          { soft_limit := none, hard_limit := some 1 }).acquire_connection
        originA).2.keepalive_connections.length = 0 :=
  ⟨rfl, rfl, rfl, rfl⟩

/-- Claim C1 (amended): in the store-based pool with `hard_limit = K`, for
every reachable state under any sequence of acquire, release, engine-close
and pool-close events, the number of connections in the active store plus
the number in the keepalive store never exceeds `K`.  A keepalive reuse
consumes no permit; on a pool miss a permit is consumed and the connection
constructor then raises `TypeError` (connection_pool.py line 122 passes
`pool_release_func` to `HTTPConnection`, whose parameter is
`release_func`), so no connection is created, the stores are untouched and
the permit leaks.  The quantity `available + |active| + |keepalive|` never
increases, which yields the bound. -/
theorem hard_limit_bounds_pool_connections :
    (∀ (K : Nat) (soft : Option Nat) (ops : List PoolOp),
      ((PoolSys.init { soft_limit := soft, hard_limit := some K }).run
            ops).pool.active_connections.length
          + ((PoolSys.init { soft_limit := soft, hard_limit := some K }).run
            ops).pool.keepalive_connections.length
        ≤ K) ∧
    (∀ (p : ConnectionPool) (o : Origin) (c : Conn),
      (p.keepalive_connections.pop_by_origin o).1 = some c →
      (p.acquire_connection o).1 = Except.ok c ∧
      (p.acquire_connection o).2.max_connections = p.max_connections) ∧
    (∀ (p : ConnectionPool) (o : Origin) (sem2 : PoolSemaphore),
      (p.keepalive_connections.pop_by_origin o).1 = none →
      p.max_connections.acquire = some sem2 →
      (p.acquire_connection o).1 = Except.error PoolError.typeError ∧
      (p.acquire_connection o).2.max_connections = sem2 ∧
      (p.acquire_connection o).2.active_connections
          = p.active_connections ∧
      (p.acquire_connection o).2.keepalive_connections
          = p.keepalive_connections) := by
  refine ⟨?_, ?_, ?_⟩
  · intro K soft ops
    obtain ⟨hlim, hmeas, hwf⟩ := poolSys_run_inv (poolSysInv_init K soft) ops
    simp only [poolMeasure] at hmeas
    omega
  · intro p o c hpop
    rcases acquire_connection_cases p o with ⟨c0, hpop0, hfst, hsnd⟩ |
      ⟨hpop0, hrest⟩
    · rw [hpop0] at hpop
      cases hpop
      exact ⟨hfst, by rw [hsnd]⟩
    · rw [hpop0] at hpop
      exact Option.noConfusion hpop
  · intro p o sem2 hpop hsem
    rcases acquire_connection_cases p o with ⟨c0, hpop0, hfst, hsnd⟩ |
      ⟨hpop0, ⟨hsem0, hfst, hsnd⟩ | ⟨sem0, hsem0, hfst, hsnd⟩⟩
    · rw [hpop0] at hpop
      exact Option.noConfusion hpop
    · rw [hsem0] at hsem
      exact Option.noConfusion hsem
    · rw [hsem0] at hsem
      cases hsem
      exact ⟨hfst, by rw [hsnd], by rw [hsnd], by rw [hsnd]⟩

/-- Witness for the amended C1: the keepalive-reuse arm on
`closedKeepalivePool` hands out the stored connection without touching the
semaphore, and the miss arm on a fresh one-permit pool returns the
constructor `TypeError`. -/
theorem hard_limit_bounds_pool_connections_witness :
    (closedKeepalivePool.acquire_connection originA).1
        = Except.ok sampleConn ∧
    ((ConnectionPool.init
          { soft_limit := none, hard_limit := some 1 }).acquire_connection
        originA).1 = Except.error PoolError.typeError :=
  ⟨(hard_limit_bounds_pool_connections.2.1 closedKeepalivePool originA
      sampleConn rfl).1,
   (hard_limit_bounds_pool_connections.2.2
      (ConnectionPool.init { soft_limit := none, hard_limit := some 1 })
      originA { hard_limit := some 1, available := 0 } rfl rfl).1⟩

theorem connectionStore_apply_wf {s : ConnectionStore} (h : s.WF)
    (op : StoreOp) : (s.apply op).WF := by
  cases op with
  | add c => exact connectionStore_add_wf h
  | remove c => exact connectionStore_remove_wf h
  | pop o => exact connectionStore_pop_wf h o

theorem connectionStore_foldl_wf {s : ConnectionStore} (h : s.WF)
    (ops : List StoreOp) : (ops.foldl ConnectionStore.apply s).WF := by
  induction ops generalizing s with
  | nil => exact h
  | cons op rest ih => exact ih (connectionStore_apply_wf h op)

theorem connectionStore_runOps_wf (ops : List StoreOp) :
    (ConnectionStore.runOps ops).WF :=
  connectionStore_foldl_wf connectionStore_empty_wf ops

/-- Claim C7: every connection handed out by `acquire_connection` for
origin `O` previously resided in the keepalive store and has origin `O`.
In this source the miss path never hands out a connection (the constructor
call raises `TypeError`), so a hand-out can only be a keepalive reuse; over
any keepalive store built by the store's own add, remove and pop operations
— as the pool's release path builds it — the per-origin index only holds
connections of the indexed origin.  Consequently the same connection is
never handed out for two different origins. -/
theorem acquired_connection_matches_origin :
    (∀ (ops : List StoreOp) (p : ConnectionPool) (o : Origin) (c : Conn),
      p.keepalive_connections = ConnectionStore.runOps ops →
      (p.acquire_connection o).1 = Except.ok c →
      c ∈ p.keepalive_connections.all ∧ c.origin = o) ∧
    (∀ (ops1 ops2 : List StoreOp) (p1 p2 : ConnectionPool)
        (o1 o2 : Origin) (c : Conn),
      p1.keepalive_connections = ConnectionStore.runOps ops1 →
      p2.keepalive_connections = ConnectionStore.runOps ops2 →
      (p1.acquire_connection o1).1 = Except.ok c →
      (p2.acquire_connection o2).1 = Except.ok c →
      o1 = o2) := by
  have hmain : ∀ (ops : List StoreOp) (p : ConnectionPool) (o : Origin)
      (c : Conn),
      p.keepalive_connections = ConnectionStore.runOps ops →
      (p.acquire_connection o).1 = Except.ok c →
      c ∈ p.keepalive_connections.all ∧ c.origin = o := by
    intro ops p o c hka h
    have hwf : p.keepalive_connections.WF := by
      rw [hka]
      exact connectionStore_runOps_wf ops
    rcases acquire_connection_cases p o with ⟨c0, hpop, hfst, hsnd⟩ |
      ⟨hpop, ⟨hsem, hfst, hsnd⟩ | ⟨sem2, hsem, hfst, hsnd⟩⟩
    · rw [hfst] at h
      cases h
      exact pop_by_origin_some_mem hwf hpop
    · rw [hfst] at h
      exact Except.noConfusion h
    · rw [hfst] at h
      exact Except.noConfusion h
  refine ⟨hmain, ?_⟩
  intro ops1 ops2 p1 p2 o1 o2 c hka1 hka2 h1 h2
  exact ((hmain ops1 p1 o1 c hka1 h1).2).symm.trans
    (hmain ops2 p2 o2 c hka2 h2).2

/-- Witness for C7: a pool whose keepalive store was populated by the
store's add operation hands out the stored connection, which resided in
keepalive and has the requested origin. -/
theorem acquired_connection_matches_origin_witness :
    Conn.mk 5 originA ∈
      ({ soft_limit := none
         is_closed := false
         max_connections := { hard_limit := some 1, available := 1 }
         keepalive_connections :=
           ConnectionStore.runOps [StoreOp.add (Conn.mk 5 originA)]
         active_connections := ConnectionStore.empty :
         ConnectionPool }).keepalive_connections.all ∧
    (Conn.mk 5 originA).origin = originA :=
  acquired_connection_matches_origin.1 [StoreOp.add (Conn.mk 5 originA)]
    { soft_limit := none
      is_closed := false
      max_connections := { hard_limit := some 1, available := 1 }
      keepalive_connections :=
        ConnectionStore.runOps [StoreOp.add (Conn.mk 5 originA)]
      active_connections := ConnectionStore.empty }
    originA (Conn.mk 5 originA) rfl rfl

/-- Claim C6: on every store reachable from the empty `ConnectionStore` by
add, remove and pop operations, `pop_by_origin O` returns the most recently
added still-present connection with origin `O` — the last element of the
insertion-ordered list of `O`-connections — and removes exactly it, and it
returns `none` exactly when the store holds no connection for `O`.  In the
counter-based pool of pool.py the keepalive list pop is likewise
LIFO-per-origin: `acquire_connection` hands out the last element of the
origin's list. -/
theorem pop_by_origin_is_lifo :
    (∀ (ops : List StoreOp) (o : Origin),
      ((ConnectionStore.runOps ops).pop_by_origin o).1
          = (connsFor (ConnectionStore.runOps ops).all o).getLast? ∧
      (((ConnectionStore.runOps ops).pop_by_origin o).1 = none ↔
        connsFor (ConnectionStore.runOps ops).all o = []) ∧
      (∀ c, ((ConnectionStore.runOps ops).pop_by_origin o).1 = some c →
        ((ConnectionStore.runOps ops).pop_by_origin o).2.all
          = (ConnectionStore.runOps ops).all.erase c)) ∧
    (∀ (p : PoolB) (o : Origin) (fid : Nat) (conns : List Conn) (c : Conn),
      alistLookup p.keepalive_connections o = some conns →
      conns.getLast? = some c →
      (p.acquire_connection o fid).1 = Except.ok c) := by
  constructor
  · intro ops o
    have hwf := connectionStore_runOps_wf ops
    refine ⟨pop_by_origin_fst hwf o, ?_, fun c hc => pop_by_origin_some_all hc⟩
    rw [pop_by_origin_fst hwf o]
    exact List.getLast?_eq_none_iff
  · intro p o fid conns c hl hg
    simp only [PoolB.acquire_connection, hl, hg]

/-- Witness for C6: after adding two `originA` connections, popping returns
the second one (LIFO) and erases it from the store; the counter-based pool
with the same keepalive list also hands out the second one. -/
theorem pop_by_origin_is_lifo_witness :
    ((ConnectionStore.runOps
        [StoreOp.add (Conn.mk 1 originA), StoreOp.add (Conn.mk 2 originA)]
      ).pop_by_origin originA).2.all
        = (ConnectionStore.runOps
            [StoreOp.add (Conn.mk 1 originA), StoreOp.add (Conn.mk 2 originA)]
          ).all.erase (Conn.mk 2 originA) ∧
    (({ soft_limit := none
        is_closed := false
        num_active_connections := 0
        num_keepalive_connections := 2
        keepalive_connections :=
          [(originA, [Conn.mk 1 originA, Conn.mk 2 originA])]
        max_connections := { max_connections := none, value := 0 } :
        PoolB }).acquire_connection originA 9).1
      = Except.ok (Conn.mk 2 originA) :=
  ⟨(pop_by_origin_is_lifo.1
      [StoreOp.add (Conn.mk 1 originA), StoreOp.add (Conn.mk 2 originA)]
      originA).2.2 (Conn.mk 2 originA) rfl,
   pop_by_origin_is_lifo.2 _ originA 9 [Conn.mk 1 originA, Conn.mk 2 originA]
     (Conn.mk 2 originA) rfl rfl⟩

theorem release_connection_closed_arm (p : ConnectionPool)
    (closedIds : List Nat) (c : Conn)
    (hcl : Conn.is_closed closedIds c = true) :
    p.release_connection closedIds c
      = ({ p with
            active_connections := p.active_connections.remove c
            max_connections := p.max_connections.release }, false) := by
  simp only [ConnectionPool.release_connection, hcl, if_true]

theorem release_connection_soft_arm (p : ConnectionPool)
    (closedIds : List Nat) (c : Conn) (soft : Nat)
    (hcl : Conn.is_closed closedIds c = false)
    (hsoft : p.soft_limit = some soft) (hlt : soft < p.num_connections) :
    p.release_connection closedIds c
      = ({ p with
            active_connections := p.active_connections.remove c
            max_connections := p.max_connections.release }, true) := by
  simp only [ConnectionPool.release_connection, hcl, hsoft,
    Bool.false_eq_true, if_false, decide_eq_true hlt, if_true]

theorem release_connection_keep_arm (p : ConnectionPool)
    (closedIds : List Nat) (c : Conn)
    (hcl : Conn.is_closed closedIds c = false)
    (hok : ∀ soft, p.soft_limit = some soft → p.num_connections ≤ soft) :
    p.release_connection closedIds c
      = ({ p with
            active_connections := p.active_connections.remove c
            keepalive_connections := p.keepalive_connections.add c },
         false) := by
  cases hsl : p.soft_limit with
  | none =>
    simp only [ConnectionPool.release_connection, hcl, hsl,
      Bool.false_eq_true, if_false]
  | some soft =>
    have hdec : decide (soft < p.num_connections) = false :=
      decide_eq_false (Nat.not_lt.mpr (hok soft hsl))
    simp only [ConnectionPool.release_connection, hcl, hsl, hdec,
      Bool.false_eq_true, if_false]

theorem poolB_release_closed_arm (p : PoolB) (closedIds : List Nat)
    (c : Conn) (hcl : Conn.is_closed closedIds c = true) :
    p.release_connection closedIds c
      = ({ p with
            max_connections := p.max_connections.release
            num_active_connections := p.num_active_connections - 1 },
         false) := by
  simp only [PoolB.release_connection, hcl, if_true]

theorem poolB_release_soft_arm (p : PoolB) (closedIds : List Nat)
    (c : Conn) (soft : Nat) (hcl : Conn.is_closed closedIds c = false)
    (hsoft : p.soft_limit = some soft)
    (hlt : (soft : Int) < p.num_connections) :
    p.release_connection closedIds c
      = ({ p with
            max_connections := p.max_connections.release
            num_active_connections := p.num_active_connections - 1 },
         true) := by
  simp only [PoolB.release_connection, hcl, hsoft, Bool.false_eq_true,
    if_false, decide_eq_true hlt, if_true]

theorem poolB_release_keep_arm (p : PoolB) (closedIds : List Nat) (c : Conn)
    (hcl : Conn.is_closed closedIds c = false)
    (hok : ∀ soft, p.soft_limit = some soft →
      p.num_connections ≤ (soft : Int)) :
    p.release_connection closedIds c
      = ({ p with
            num_active_connections := p.num_active_connections - 1
            num_keepalive_connections := p.num_keepalive_connections + 1
            keepalive_connections :=
              match alistLookup p.keepalive_connections c.origin with
              | some conns =>
                alistSet p.keepalive_connections c.origin (conns ++ [c])
              | none => alistSet p.keepalive_connections c.origin [c] },
         false) := by
  cases hsl : p.soft_limit with
  | none =>
    simp only [PoolB.release_connection, hcl, hsl, Bool.false_eq_true,
      if_false]
  | some soft =>
    have hdec : decide ((soft : Int) < p.num_connections) = false :=
      decide_eq_false (not_lt.mpr (hok soft hsl))
    simp only [PoolB.release_connection, hcl, hsl, hdec, Bool.false_eq_true,
      if_false]

/-- Claim C2: `release_connection(C)` behaves by cases.  If `C.is_closed`,
then `C` is removed from the active store, one semaphore permit is released,
the keepalive store is untouched (so `C` is not added to it), and `C` is not
closed by the pool.  Otherwise, if a soft limit is configured and
`|keepalive| + |active| > soft_limit` at release time, `C` is removed from
active, a permit is released, and `connection.close()` is awaited.
Otherwise `C` moves from the active store to the keepalive store and no
permit is released.  The same branch structure holds for the counter-based
pool of pool.py, with its counters and per-origin keepalive lists. -/
theorem release_connection_branches :
    (∀ (p : ConnectionPool) (closedIds : List Nat) (c : Conn),
      p.active_connections.all.Nodup →
      ((Conn.is_closed closedIds c = true →
          c ∉ (p.release_connection closedIds c).1.active_connections.all ∧
          (∀ d, d ∈ (p.release_connection closedIds c).1.active_connections.all
              ↔ d ≠ c ∧ d ∈ p.active_connections.all) ∧
          (p.release_connection closedIds c).1.max_connections
            = p.max_connections.release ∧
          (p.release_connection closedIds c).1.keepalive_connections
            = p.keepalive_connections ∧
          (p.release_connection closedIds c).2 = false) ∧
        (Conn.is_closed closedIds c = false →
          ∀ soft, p.soft_limit = some soft → soft < p.num_connections →
          c ∉ (p.release_connection closedIds c).1.active_connections.all ∧
          (p.release_connection closedIds c).1.max_connections
            = p.max_connections.release ∧
          (p.release_connection closedIds c).1.keepalive_connections
            = p.keepalive_connections ∧
          (p.release_connection closedIds c).2 = true) ∧
        (Conn.is_closed closedIds c = false →
          (∀ soft, p.soft_limit = some soft → p.num_connections ≤ soft) →
          c ∉ (p.release_connection closedIds c).1.active_connections.all ∧
          c ∈ (p.release_connection closedIds c).1.keepalive_connections.all ∧
          (p.release_connection closedIds c).1.max_connections
            = p.max_connections ∧
          (p.release_connection closedIds c).2 = false))) ∧
    (∀ (p : PoolB) (closedIds : List Nat) (c : Conn),
      ((Conn.is_closed closedIds c = true →
          (p.release_connection closedIds c).1.num_active_connections
            = p.num_active_connections - 1 ∧
          (p.release_connection closedIds c).1.max_connections
            = p.max_connections.release ∧
          (p.release_connection closedIds c).1.keepalive_connections
            = p.keepalive_connections ∧
          (p.release_connection closedIds c).2 = false) ∧
        (Conn.is_closed closedIds c = false →
          ∀ soft, p.soft_limit = some soft →
          (soft : Int) < p.num_connections →
          (p.release_connection closedIds c).1.num_active_connections
            = p.num_active_connections - 1 ∧
          (p.release_connection closedIds c).1.max_connections
            = p.max_connections.release ∧
          (p.release_connection closedIds c).1.keepalive_connections
            = p.keepalive_connections ∧
          (p.release_connection closedIds c).2 = true) ∧
        (Conn.is_closed closedIds c = false →
          (∀ soft, p.soft_limit = some soft →
            p.num_connections ≤ (soft : Int)) →
          (p.release_connection closedIds c).1.num_active_connections
            = p.num_active_connections - 1 ∧
          (p.release_connection closedIds c).1.num_keepalive_connections
            = p.num_keepalive_connections + 1 ∧
          alistLookup
              (p.release_connection closedIds c).1.keepalive_connections
              c.origin
            = some (alistLookupD p.keepalive_connections c.origin ++ [c]) ∧
          (p.release_connection closedIds c).1.max_connections
            = p.max_connections ∧
          (p.release_connection closedIds c).2 = false))) := by
  constructor
  · intro p closedIds c hnodup
    refine ⟨?_, ?_, ?_⟩
    · intro hcl
      rw [release_connection_closed_arm p closedIds c hcl]
      refine ⟨hnodup.not_mem_erase, ?_, rfl, rfl, rfl⟩
      intro d
      exact hnodup.mem_erase_iff
    · intro hcl soft hsoft hlt
      rw [release_connection_soft_arm p closedIds c soft hcl hsoft hlt]
      exact ⟨hnodup.not_mem_erase, rfl, rfl, rfl⟩
    · intro hcl hok
      rw [release_connection_keep_arm p closedIds c hcl hok]
      refine ⟨hnodup.not_mem_erase, ?_, rfl, rfl⟩
      exact mem_dictAdd.mpr (Or.inr rfl)
  · intro p closedIds c
    refine ⟨?_, ?_, ?_⟩
    · intro hcl
      rw [poolB_release_closed_arm p closedIds c hcl]
      exact ⟨rfl, rfl, rfl, rfl⟩
    · intro hcl soft hsoft hlt
      rw [poolB_release_soft_arm p closedIds c soft hcl hsoft hlt]
      exact ⟨rfl, rfl, rfl, rfl⟩
    · intro hcl hok
      rw [poolB_release_keep_arm p closedIds c hcl hok]
      refine ⟨rfl, rfl, ?_, rfl, rfl⟩
      cases hl : alistLookup p.keepalive_connections c.origin with
      | some conns =>
        dsimp only
        rw [alistLookup_set_self, alistLookupD, hl]
        rfl
      | none =>
        dsimp only
        rw [alistLookup_set_self, alistLookupD, hl]
        rfl

/-- Witness for C2: on a pool with one active connection, releasing it as
closed awaits no `connection.close`, and releasing it as open with no soft
limit puts it into the keepalive store. -/
theorem release_connection_branches_witness :
    (samplePool.release_connection [7] sampleConn).2 = false ∧
    sampleConn ∈
      (samplePool.release_connection []
        sampleConn).1.keepalive_connections.all :=
  ⟨((release_connection_branches.1 samplePool [7] sampleConn (by decide)).1
      (by decide)).2.2.2.2,
   ((release_connection_branches.1 samplePool [] sampleConn (by decide)).2.2
      (by decide) (fun soft h => Option.noConfusion h)).2.1⟩

/-- Claim C3 (amended): in `acquire_connection` for origin `O`, a
connection popped from the keepalive store is moved to the active store and
handed out unconditionally — its closed state is not consulted.  When the
keepalive store yields no connection for `O`, the pool acquires a permit
and the connection constructor call then raises `TypeError`
(`pool_release_func` is not a parameter of `HTTPConnection.__init__`), so a
new connection is never constructed or handed out; with no permit free the
wait ends in `PoolTimeout` instead. -/
theorem acquire_uses_popped_connection_unconditionally :
    ∀ (p : ConnectionPool) (o : Origin),
      (∀ c, (p.keepalive_connections.pop_by_origin o).1 = some c →
        (p.acquire_connection o).1 = Except.ok c ∧
        (p.acquire_connection o).2.active_connections
          = p.active_connections.add c ∧
        (p.acquire_connection o).2.max_connections
          = p.max_connections) ∧
      ((p.keepalive_connections.pop_by_origin o).1 = none →
        ∀ sem2, p.max_connections.acquire = some sem2 →
        (p.acquire_connection o).1 = Except.error PoolError.typeError ∧
        (p.acquire_connection o).2.max_connections = sem2 ∧
        (p.acquire_connection o).2.active_connections
          = p.active_connections ∧
        (p.acquire_connection o).2.keepalive_connections
          = p.keepalive_connections) ∧
      ((p.keepalive_connections.pop_by_origin o).1 = none →
        p.max_connections.acquire = none →
        (p.acquire_connection o).1
          = Except.error PoolError.poolTimeout) := by
  intro p o
  rcases acquire_connection_cases p o with ⟨c0, hpop, hfst, hsnd⟩ |
    ⟨hpop, ⟨hsem, hfst, hsnd⟩ | ⟨sem2, hsem, hfst, hsnd⟩⟩
  · refine ⟨?_, ?_, ?_⟩
    · intro c hc
      rw [hpop] at hc
      cases hc
      exact ⟨hfst, by rw [hsnd], by rw [hsnd]⟩
    · intro hnone
      rw [hpop] at hnone
      exact Option.noConfusion hnone
    · intro hnone
      rw [hpop] at hnone
      exact Option.noConfusion hnone
  · refine ⟨?_, ?_, ?_⟩
    · intro c hc
      rw [hpop] at hc
      exact Option.noConfusion hc
    · intro _ sem2 hs2
      rw [hsem] at hs2
      exact Option.noConfusion hs2
    · intro _ _
      exact hfst
  · refine ⟨?_, ?_, ?_⟩
    · intro c hc
      rw [hpop] at hc
      exact Option.noConfusion hc
    · intro _ sem2b hs2
      rw [hsem] at hs2
      cases hs2
      exact ⟨hfst, by rw [hsnd], by rw [hsnd], by rw [hsnd]⟩
    · intro _ hs
      rw [hsem] at hs
      exact Option.noConfusion hs

/-- Witness for the amended C3: on `closedKeepalivePool`, whose keepalive
store holds connection 7, acquiring for `originA` hands out exactly that
connection; on a fresh one-permit pool the miss path returns the
constructor `TypeError`. -/
theorem acquire_uses_popped_connection_unconditionally_witness :
    (closedKeepalivePool.acquire_connection originA).1
        = Except.ok sampleConn ∧
    ((ConnectionPool.init
          { soft_limit := none, hard_limit := some 1 }).acquire_connection
        originA).1 = Except.error PoolError.typeError :=
  ⟨((acquire_uses_popped_connection_unconditionally closedKeepalivePool
      originA).1 sampleConn rfl).1,
   ((acquire_uses_popped_connection_unconditionally
      (ConnectionPool.init { soft_limit := none, hard_limit := some 1 })
      originA).2.1 rfl { hard_limit := some 1, available := 0 } rfl).1⟩

/-- Counterexample to C3 as stated: `closedKeepalivePool` holds in its
keepalive store a connection whose engine (closed-id set `[7]`) reports
`is_closed`, yet `acquire_connection` pops it, moves it to the active store
and hands it out — no new connection is constructed and no closed check is
made. -/
theorem acquire_hands_out_closed_connection :
    Conn.is_closed [7] sampleConn = true ∧
    sampleConn ∈ closedKeepalivePool.keepalive_connections.all ∧
    (closedKeepalivePool.acquire_connection originA).1
        = Except.ok sampleConn ∧
    sampleConn ∈
      (closedKeepalivePool.acquire_connection
        originA).2.active_connections.all := by
  refine ⟨by decide, by decide, rfl, by decide⟩

/-- Counterexample to C4 as stated: after `close()` the pool is marked
closed, but a subsequent `send` does not fail with a `PoolClosed` error —
no such error exists in the code.  It fails with the miss-path constructor
`TypeError`, and the very same send on the pool with the flag cleared fails
identically, so the failure owes nothing to the pool being closed. -/
theorem send_after_close_raises_type_error :
    ((ConnectionPool.init
        { soft_limit := none, hard_limit := some 1 }).close.1.is_closed
      = true) ∧
    (((ConnectionPool.init
        { soft_limit := none, hard_limit := some 1 }).close.1.send
          originA).1
      = Except.error PoolError.typeError) ∧
    (((ConnectionPool.init
        { soft_limit := none, hard_limit := some 1 }).send originA).1
      = Except.error PoolError.typeError) :=
  ⟨rfl, rfl, rfl⟩

theorem acquire_connection_ignores_is_closed (p : ConnectionPool) (b : Bool)
    (o : Origin) :
    (ConnectionPool.acquire_connection { p with is_closed := b } o).1
        = (p.acquire_connection o).1 ∧
    (ConnectionPool.acquire_connection { p with is_closed := b }
          o).2.active_connections
        = (p.acquire_connection o).2.active_connections ∧
    (ConnectionPool.acquire_connection { p with is_closed := b }
          o).2.keepalive_connections
        = (p.acquire_connection o).2.keepalive_connections ∧
    (ConnectionPool.acquire_connection { p with is_closed := b }
          o).2.max_connections
        = (p.acquire_connection o).2.max_connections := by
  simp only [ConnectionPool.acquire_connection]
  cases hp : p.keepalive_connections.pop_by_origin o with
  | mk fst snd =>
    cases fst with
    | some c => exact ⟨rfl, rfl, rfl, rfl⟩
    | none =>
      cases hsem : p.max_connections.acquire with
      | none => exact ⟨rfl, rfl, rfl, rfl⟩
      | some sem2 => exact ⟨rfl, rfl, rfl, rfl⟩

/-- Claim C4 (amended): `close()` marks the pool closed, drains the
keepalive store and returns the drained connections, each of which the
source then closes, and leaves the active store in place.  A subsequent
`send` does fail — but not with a pool-closed error (none exists) and not
because the pool is closed: `send` never consults the `is_closed` flag, so
its result and the stores and semaphore it produces are identical for any
value of the flag, and on the drained pool every send fails the way any
send on this pool does, with `PoolTimeout` when no permit is free and
otherwise with the constructor `TypeError`. -/
theorem close_drains_but_send_ignores_flag :
    (∀ p : ConnectionPool,
      p.close.1.is_closed = true ∧
      p.close.1.keepalive_connections = ConnectionStore.empty ∧
      p.close.2 = p.keepalive_connections.all ∧
      p.close.1.active_connections = p.active_connections) ∧
    (∀ (p : ConnectionPool) (b : Bool) (o : Origin),
      (ConnectionPool.send { p with is_closed := b } o).1
          = (p.send o).1 ∧
      (ConnectionPool.send { p with is_closed := b }
            o).2.active_connections
          = (p.send o).2.active_connections ∧
      (ConnectionPool.send { p with is_closed := b }
            o).2.keepalive_connections
          = (p.send o).2.keepalive_connections ∧
      (ConnectionPool.send { p with is_closed := b }
            o).2.max_connections
          = (p.send o).2.max_connections) ∧
    (∀ (p : ConnectionPool) (o : Origin),
      (p.close.1.send o).1
        = (match p.max_connections.acquire with
            | none => Except.error PoolError.poolTimeout
            | some _ => Except.error PoolError.typeError)) := by
  refine ⟨fun _ => ⟨rfl, rfl, rfl, rfl⟩,
    fun p b o => acquire_connection_ignores_is_closed p b o, ?_⟩
  intro p o
  have hpop : (p.close.1.keepalive_connections.pop_by_origin o).1 = none :=
    rfl
  have hmax : p.close.1.max_connections = p.max_connections := rfl
  show (p.close.1.acquire_connection o).1 = _
  rcases acquire_connection_cases p.close.1 o with ⟨c0, hpop0, hfst, hsnd⟩ |
    ⟨hpop0, ⟨hsem, hfst, hsnd⟩ | ⟨sem2, hsem, hfst, hsnd⟩⟩
  · rw [hpop0] at hpop
    exact Option.noConfusion hpop
  · rw [hfst, hmax] at *
    rw [hsem]
  · rw [hfst]
    rw [hmax] at hsem
    rw [hsem]

/-- Claim C5: in the counter-based pool, when the semaphore is bounded and
has no free permit and the keepalive table yields no connection for the
origin (missing key or empty list), waiting for a permit can only end in
the pool timeout: `acquire_connection` fails with `PoolTimeout` and the
pool — its counters, keepalive table and semaphore — is exactly as before,
and no connection value is produced.  Nothing is mutated before the
awaited acquire, and a timed-out waiter consumes no permit. -/
theorem pool_timeout_leaves_state_unchanged :
    ∀ (p : PoolB) (o : Origin) (fid : Nat) (K : Nat),
      p.max_connections.max_connections = some K →
      p.max_connections.value = 0 →
      (alistLookup p.keepalive_connections o = none ∨
        alistLookup p.keepalive_connections o = some []) →
      (p.acquire_connection o fid).1 = Except.error PoolError.poolTimeout ∧
      (p.acquire_connection o fid).2 = p := by
  intro p o fid K hK hv hka
  have hsem : p.max_connections.acquire = none := by
    simp only [ConnectionSemaphore.acquire, hK, hv, Nat.lt_irrefl, if_false]
  rcases hka with h | h
  · constructor
    · simp only [PoolB.acquire_connection, h, PoolB.acquire_miss, hsem]
    · simp only [PoolB.acquire_connection, h, PoolB.acquire_miss, hsem]
  · constructor
    · simp only [PoolB.acquire_connection, h, List.getLast?_nil,
        PoolB.acquire_miss, hsem]
    · simp only [PoolB.acquire_connection, h, List.getLast?_nil,
        PoolB.acquire_miss, hsem]

/-- Witness for C5: on a pool whose single permit is held and whose
keepalive table is empty, acquiring for `originA` fails with
`PoolTimeout` and leaves the pool unchanged. -/
theorem pool_timeout_leaves_state_unchanged_witness :
    (samplePoolB.acquire_connection originA 3).1
        = Except.error PoolError.poolTimeout ∧
    (samplePoolB.acquire_connection originA 3).2 = samplePoolB :=
  pool_timeout_leaves_state_unchanged samplePoolB originA 3 1 rfl rfl
    (Or.inl rfl)

theorem send_of_opened {s : HTTPConn}
    (h : ¬(s.h11_connection = none ∧ s.h2_connection = none))
    (n : Protocol) : (s.send n).1 = s := by
  simp only [HTTPConn.send, if_neg h]
  cases s.h2_connection with
  | some engine => rfl
  | none => rfl

theorem sendMany_of_opened {s : HTTPConn}
    (h : ¬(s.h11_connection = none ∧ s.h2_connection = none))
    (ns : List Protocol) : s.sendMany ns = s := by
  induction ns with
  | nil => rfl
  | cons n rest ih =>
    show ((s.send n).1).sendMany rest = s
    rw [send_of_opened h n]
    exact ih

/-- Claim C8: the first `send` on a fresh `HTTPConnection` opens the
transport once and instantiates exactly one engine — the HTTP/2 engine when
ALPN negotiated HTTP/2, otherwise the HTTP/1.1 engine — and sends on it;
every later `send` leaves the connection state (engines and transport-open
count) unchanged and sends on the same engine. -/
theorem first_send_connects_then_reuses :
    ∀ (o : Origin) (p0 : Protocol) (rest : List Protocol),
      ((p0 = Protocol.http2 →
        ((HTTPConn.init o).send p0).1.h2_connection
            = some { engineId := 0, closed := false } ∧
        ((HTTPConn.init o).send p0).1.h11_connection = none) ∧
       (p0 = Protocol.http11 →
        ((HTTPConn.init o).send p0).1.h11_connection
            = some { engineId := 0, closed := false } ∧
        ((HTTPConn.init o).send p0).1.h2_connection = none)) ∧
      ((HTTPConn.init o).send p0).2
          = some { engineId := 0, closed := false } ∧
      ((HTTPConn.init o).send p0).1.connectCount = 1 ∧
      (((HTTPConn.init o).send p0).1).sendMany rest
          = ((HTTPConn.init o).send p0).1 ∧
      (∀ pn : Protocol,
        ((((HTTPConn.init o).send p0).1).send pn).2
          = ((HTTPConn.init o).send p0).2) := by
  intro o p0 rest
  cases p0 with
  | http2 =>
    refine ⟨⟨fun _ => ⟨rfl, rfl⟩, fun h => Protocol.noConfusion h⟩,
      rfl, rfl, ?_, fun pn => rfl⟩
    exact sendMany_of_opened (by simp [HTTPConn.send, HTTPConn.init,
      HTTPConn.connect]) rest
  | http11 =>
    refine ⟨⟨fun h => Protocol.noConfusion h, fun _ => ⟨rfl, rfl⟩⟩,
      rfl, rfl, ?_, fun pn => rfl⟩
    exact sendMany_of_opened (by simp [HTTPConn.send, HTTPConn.init,
      HTTPConn.connect]) rest

/-- Witness for C8: a fresh connection to `originA` negotiating HTTP/2
instantiates the HTTP/2 engine, and two later sends leave the state
unchanged. -/
theorem first_send_connects_then_reuses_witness :
    ((HTTPConn.init originA).send Protocol.http2).1.h2_connection
        = some { engineId := 0, closed := false } ∧
    (((HTTPConn.init originA).send Protocol.http2).1).sendMany
        [Protocol.http11, Protocol.http2]
      = ((HTTPConn.init originA).send Protocol.http2).1 :=
  ⟨((first_send_connects_then_reuses originA Protocol.http2
      [Protocol.http11, Protocol.http2]).1.1 rfl).1,
   (first_send_connects_then_reuses originA Protocol.http2
      [Protocol.http11, Protocol.http2]).2.2.2.1⟩

theorem keepaliveCount_cons (e : Origin × List Conn)
    (rest : List (Origin × List Conn)) :
    keepaliveCount (e :: rest) = e.2.length + keepaliveCount rest := by
  simp [keepaliveCount]

theorem keepaliveCount_set_some {m : List (Origin × List Conn)} {o : Origin}
    {conns : List Conn} (hl : alistLookup m o = some conns)
    (v : List Conn) :
    keepaliveCount (alistSet m o v) + conns.length
      = keepaliveCount m + v.length := by
  induction m with
  | nil => exact Option.noConfusion hl
  | cons e rest ih =>
    obtain ⟨oKey, vKey⟩ := e
    by_cases hk : oKey = o
    · subst hk
      have hv : vKey = conns := by
        simp [alistLookup] at hl
        exact hl
      have hset : alistSet ((oKey, vKey) :: rest) oKey v
          = (oKey, v) :: rest := by
        simp [alistSet]
      rw [hset, keepaliveCount_cons, keepaliveCount_cons, hv]
      dsimp only
      omega
    · simp only [alistLookup, if_neg hk] at hl
      simp only [alistSet, if_neg hk, keepaliveCount_cons]
      have := ih hl
      omega

theorem keepaliveCount_set_none {m : List (Origin × List Conn)} {o : Origin}
    (hl : alistLookup m o = none) (v : List Conn) :
    keepaliveCount (alistSet m o v) = keepaliveCount m + v.length := by
  induction m with
  | nil => simp [alistSet, keepaliveCount]
  | cons e rest ih =>
    obtain ⟨oKey, vKey⟩ := e
    by_cases hk : oKey = o
    · subst hk
      simp [alistLookup] at hl
    · simp only [alistLookup, if_neg hk] at hl
      simp only [alistSet, if_neg hk, keepaliveCount_cons]
      have := ih hl
      omega

theorem keepaliveCount_del_some {m : List (Origin × List Conn)} {o : Origin}
    {conns : List Conn} (hl : alistLookup m o = some conns) :
    keepaliveCount (alistDel m o) + conns.length = keepaliveCount m := by
  induction m with
  | nil => exact Option.noConfusion hl
  | cons e rest ih =>
    obtain ⟨oKey, vKey⟩ := e
    by_cases hk : oKey = o
    · subst hk
      have hv : vKey = conns := by
        simp [alistLookup] at hl
        exact hl
      have hdel : alistDel ((oKey, vKey) :: rest) oKey = rest := by
        simp [alistDel]
      rw [hdel, keepaliveCount_cons, hv]
      dsimp only
      omega
    · simp only [alistLookup, if_neg hk] at hl
      simp only [alistDel, if_neg hk, keepaliveCount_cons]
      have := ih hl
      omega

theorem keepaliveCount_append_one (m : List (Origin × List Conn))
    (o : Origin) (c : Conn) :
    keepaliveCount
        (match alistLookup m o with
          | some conns => alistSet m o (conns ++ [c])
          | none => alistSet m o [c])
      = keepaliveCount m + 1 := by
  cases hl : alistLookup m o with
  | some conns =>
    dsimp only
    have h := keepaliveCount_set_some hl (conns ++ [c])
    rw [List.length_append] at h
    simp only [List.length_singleton] at h
    omega
  | none =>
    dsimp only
    have h := keepaliveCount_set_none hl [c]
    simpa using h

theorem keepaliveCount_pop {m : List (Origin × List Conn)} {o : Origin}
    {conns : List Conn} {c : Conn} (hl : alistLookup m o = some conns)
    (hg : conns.getLast? = some c) :
    keepaliveCount
        (if conns.dropLast.isEmpty then alistDel m o
          else alistSet m o conns.dropLast) + 1
      = keepaliveCount m := by
  have hsplit : conns.dropLast ++ [c] = conns :=
    List.dropLast_append_getLast? c (Option.mem_def.mpr hg)
  have hlen : conns.length = conns.dropLast.length + 1 := by
    conv_lhs => rw [← hsplit]
    simp
  by_cases he : conns.dropLast.isEmpty
  · rw [if_pos he]
    have hd := keepaliveCount_del_some hl
    have hz : conns.dropLast.length = 0 := by
      rw [List.isEmpty_iff.mp he]
      rfl
    omega
  · rw [if_neg he]
    have hs := keepaliveCount_set_some hl conns.dropLast
    omega

theorem poolB_acquire_hit (p : PoolB) (o : Origin) (fid : Nat)
    {conns : List Conn} {c : Conn}
    (hl : alistLookup p.keepalive_connections o = some conns)
    (hg : conns.getLast? = some c) :
    p.acquire_connection o fid
      = (Except.ok c,
         { p with
            keepalive_connections :=
              if conns.dropLast.isEmpty then
                alistDel p.keepalive_connections o
              else alistSet p.keepalive_connections o conns.dropLast
            num_keepalive_connections := p.num_keepalive_connections - 1
            num_active_connections := p.num_active_connections + 1 }) := by
  simp only [PoolB.acquire_connection, hl, hg]

theorem poolB_acquire_miss_eq (p : PoolB) (o : Origin) (fid : Nat)
    (h : alistLookup p.keepalive_connections o = none ∨
      ∃ conns, alistLookup p.keepalive_connections o = some conns ∧
        conns.getLast? = none) :
    p.acquire_connection o fid = p.acquire_miss o fid := by
  rcases h with h | ⟨conns, hl, hg⟩
  · simp only [PoolB.acquire_connection, h]
  · simp only [PoolB.acquire_connection, hl, hg]

theorem poolB_acquire_miss_cases (p : PoolB) (o : Origin) (fid : Nat) :
    (p.max_connections.acquire = none ∧
      p.acquire_miss o fid = (Except.error PoolError.poolTimeout, p)) ∨
    (∃ sem2, p.max_connections.acquire = some sem2 ∧
      p.acquire_miss o fid
        = (Except.ok { id := fid, origin := o },
           { p with
              max_connections := sem2
              num_active_connections := p.num_active_connections + 1 })) := by
  cases hs : p.max_connections.acquire with
  | none =>
    left
    exact ⟨rfl, by simp only [PoolB.acquire_miss, hs]⟩
  | some sem2 =>
    right
    exact ⟨sem2, rfl, by simp only [PoolB.acquire_miss, hs]⟩

theorem poolB_release_counter_cases (p : PoolB) (closedIds : List Nat)
    (c : Conn) :
    (p.release_connection closedIds c).1.num_active_connections
        = p.num_active_connections - 1 ∧
    (((p.release_connection closedIds c).1.num_keepalive_connections
          = p.num_keepalive_connections ∧
        (p.release_connection closedIds c).1.keepalive_connections
          = p.keepalive_connections) ∨
      ((p.release_connection closedIds c).1.num_keepalive_connections
          = p.num_keepalive_connections + 1 ∧
        (p.release_connection closedIds c).1.keepalive_connections
          = (match alistLookup p.keepalive_connections c.origin with
              | some conns =>
                alistSet p.keepalive_connections c.origin (conns ++ [c])
              | none =>
                alistSet p.keepalive_connections c.origin [c]))) := by
  unfold PoolB.release_connection
  split
  · exact ⟨rfl, Or.inl ⟨rfl, rfl⟩⟩
  · split
    · exact ⟨rfl, Or.inl ⟨rfl, rfl⟩⟩
    · exact ⟨rfl, Or.inr ⟨rfl, rfl⟩⟩

theorem poolBSys_step_acquire_miss_inv {s : PoolBSys} {o : Origin}
    {fid : Nat} (h : PoolBSysInv s)
    (hmiss : s.pool.acquire_connection o fid = s.pool.acquire_miss o fid) :
    PoolBSysInv (s.step (PoolBOp.acquire o fid)) := by
  obtain ⟨hkeep, hact⟩ := h
  rcases poolB_acquire_miss_cases s.pool o fid with ⟨hs, heq⟩ |
    ⟨sem2, hs, heq⟩
  · have hstep : s.step (PoolBOp.acquire o fid) = { s with pool := s.pool } :=
      by simp only [PoolBSys.step, hmiss, heq]
    rw [hstep]
    exact ⟨hkeep, hact⟩
  · have hstep : s.step (PoolBOp.acquire o fid)
        = { s with
            pool :=
              { s.pool with
                  max_connections := sem2
                  num_active_connections :=
                    s.pool.num_active_connections + 1 }
            leased := { id := fid, origin := o } :: s.leased } := by
      simp only [PoolBSys.step, hmiss, heq]
    rw [hstep]
    refine ⟨hkeep, ?_⟩
    simp only [PoolBSysInv, List.length_cons]
    omega

theorem poolBSys_step_inv {s : PoolBSys} (h : PoolBSysInv s) (op : PoolBOp) :
    PoolBSysInv (s.step op) := by
  cases op with
  | acquire o fid =>
    cases hl : alistLookup s.pool.keepalive_connections o with
    | none =>
      exact poolBSys_step_acquire_miss_inv h
        (poolB_acquire_miss_eq s.pool o fid (Or.inl hl))
    | some conns =>
      cases hg : conns.getLast? with
      | none =>
        exact poolBSys_step_acquire_miss_inv h
          (poolB_acquire_miss_eq s.pool o fid (Or.inr ⟨conns, hl, hg⟩))
      | some c =>
        obtain ⟨hkeep, hact⟩ := h
        have heq := poolB_acquire_hit s.pool o fid hl hg
        have hstep : s.step (PoolBOp.acquire o fid)
            = { s with
                pool :=
                  { s.pool with
                      keepalive_connections :=
                        if conns.dropLast.isEmpty then
                          alistDel s.pool.keepalive_connections o
                        else
                          alistSet s.pool.keepalive_connections o
                            conns.dropLast
                      num_keepalive_connections :=
                        s.pool.num_keepalive_connections - 1
                      num_active_connections :=
                        s.pool.num_active_connections + 1 }
                leased := c :: s.leased } := by
          simp only [PoolBSys.step, heq]
        rw [hstep]
        have hcount := keepaliveCount_pop hl hg
        constructor
        · show s.pool.num_keepalive_connections - 1
            = (keepaliveCount
                (if conns.dropLast.isEmpty then
                  alistDel s.pool.keepalive_connections o
                else alistSet s.pool.keepalive_connections o
                  conns.dropLast) : Int)
          omega
        · show s.pool.num_active_connections + 1
            = ((c :: s.leased).length : Int)
          simp only [List.length_cons]
          omega
  | release connId =>
    obtain ⟨hkeep, hact⟩ := h
    cases hf : s.leased.find? (fun c => c.id == connId) with
    | none =>
      have hstep : s.step (PoolBOp.release connId) = s := by
        simp only [PoolBSys.step, hf]
      rw [hstep]
      exact ⟨hkeep, hact⟩
    | some c =>
      have hstep : s.step (PoolBOp.release connId)
          = { s with
              pool := (s.pool.release_connection s.closedIds c).1
              leased := s.leased.erase c } := by
        simp only [PoolBSys.step, hf]
      rw [hstep]
      have hcm : c ∈ s.leased := List.mem_of_find?_eq_some hf
      have hlen : (s.leased.erase c).length = s.leased.length - 1 :=
        List.length_erase_of_mem hcm
      have hpos : 0 < s.leased.length := List.length_pos_of_mem hcm
      obtain ⟨hactive, hrest⟩ :=
        poolB_release_counter_cases s.pool s.closedIds c
      constructor
      · show (s.pool.release_connection s.closedIds
            c).1.num_keepalive_connections
          = (keepaliveCount (s.pool.release_connection s.closedIds
              c).1.keepalive_connections : Int)
        rcases hrest with ⟨hnum, hka⟩ | ⟨hnum, hka⟩
        · rw [hnum, hka]
          exact hkeep
        · rw [hnum, hka, keepaliveCount_append_one]
          push_cast
          omega
      · show (s.pool.release_connection s.closedIds
              c).1.num_active_connections
          = ((s.leased.erase c).length : Int)
        rw [hactive, hlen]
        omega
  | markClosed connId =>
    exact h

theorem poolBSys_run_inv {s : PoolBSys} (h : PoolBSysInv s)
    (ops : List PoolBOp) : PoolBSysInv (s.run ops) := by
  induction ops generalizing s with
  | nil => exact h
  | cons op rest ih => exact ih (poolBSys_step_inv h op)

/-- Claim C9: in the counter-based pool of pool.py, for every state
reachable from a fresh pool by completed `acquire_connection` and
`release_connection` calls (each release being the `on_release` callback of
a connection that was handed out and not yet released), the counter
`num_keepalive_connections` equals the total number of connections stored
across the per-origin lists of `_keepalive_connections`, and
`num_active_connections` is never negative (it counts the handed-out
connections). -/
theorem poolB_counters_match_stores (limits : PoolLimits)
    (ops : List PoolBOp) :
    ((PoolBSys.init limits).run ops).pool.num_keepalive_connections
        = (keepaliveCount
            ((PoolBSys.init limits).run
              ops).pool.keepalive_connections : Int) ∧
    0 ≤ ((PoolBSys.init limits).run ops).pool.num_active_connections := by
  have h : PoolBSysInv ((PoolBSys.init limits).run ops) :=
    poolBSys_run_inv ⟨rfl, rfl⟩ ops
  obtain ⟨hkeep, hact⟩ := h
  refine ⟨hkeep, ?_⟩
  rw [hact]
  exact Int.ofNat_nonneg _

/-- Claim C10: `HTTPConnection.is_closed` is well-defined only once the
connection has been opened.  On a connection with neither engine (never
opened) the accessor's assertion fails instead of returning a boolean
(embedded as `none`) while `close()` is a safe no-op that closes no engine;
with an engine present it returns that engine's closed state (the HTTP/2
engine taking precedence); and a completed `connect` or `send` always
leaves an engine in place, so the accessor then returns a boolean. -/
theorem is_closed_defined_only_when_opened :
    ∀ (s : HTTPConn) (o : Origin) (neg : Protocol),
      (s.h11_connection = none → s.h2_connection = none →
        s.is_closed = none ∧ s.close = none) ∧
      (∀ e, s.h2_connection = some e → s.is_closed = some e.closed) ∧
      (∀ e, s.h2_connection = none → s.h11_connection = some e →
        s.is_closed = some e.closed) ∧
      ((HTTPConn.init o).connect neg).is_closed.isSome = true ∧
      (((HTTPConn.init o).send neg).1).is_closed.isSome = true := by
  intro s o neg
  refine ⟨?_, ?_, ?_, ?_, ?_⟩
  · intro h11 h2
    constructor
    · simp only [HTTPConn.is_closed, h2, h11]
    · simp only [HTTPConn.close, h2, h11]
  · intro e h2
    simp only [HTTPConn.is_closed, h2]
  · intro e h2 h11
    simp only [HTTPConn.is_closed, h2, h11]
  · cases neg with
    | http11 => rfl
    | http2 => rfl
  · cases neg with
    | http11 => rfl
    | http2 => rfl

/-- Witness for C10: a never-opened connection to `originA` has an
undefined `is_closed` (failing assertion) and a no-op `close`, while after
a `connect` negotiating HTTP/1.1 the accessor returns a boolean. -/
theorem is_closed_defined_only_when_opened_witness :
    ((HTTPConn.init originA).is_closed = none ∧
      (HTTPConn.init originA).close = none) ∧
    ((HTTPConn.init originA).connect
        Protocol.http11).is_closed.isSome = true :=
  ⟨(is_closed_defined_only_when_opened (HTTPConn.init originA) originA
      Protocol.http11).1 rfl rfl,
   (is_closed_defined_only_when_opened (HTTPConn.init originA) originA
      Protocol.http11).2.2.2.1⟩

end Httpx
